import Mathlib

/-!
Verification of the `triangular_grid_merge` zone-merge engine against its
design specification.  The Python source `tecplot.py` is embedded shallowly:
grid state is passed explicitly, Python exceptions become `Except` errors,
Python list indexing (including negative-index wrap-around) is `pyGet`, and
coordinates are exact values (`Int`), matching the exact-equality comparison
policy of the merge.  The companion modules (`node_algorithms`, `grid`,
`node`, `edge`, `zone`) are not part of the given sources; the definitions
that stand in for them are modelled from the specification and are marked so
in their doc comments.  String tokenization of the tecplot file format is
abstracted: a file is a list of zone blocks of already-parsed numeric values.
-/

namespace TGM

/-- Geometric node: a point with two exact coordinates (from `node.py`,
whose shape is fixed by the spec data model: a node is an (x, y) pair). -/
structure Node where
  x : Int
  y : Int
deriving DecidableEq

/-- Face (triangle) as built by `parce_nodes_and_faces` and linked by
`set_faces`: the parsed 1-based local indices `nodes_ids`, plus the linked
canonical node references and edge references filled in by `set_faces`.
Canonical nodes are referenced by their position in `GridSt.Nodes`; edges by
their position in `GridSt.Edges`; `fid` is the model's stand-in for Python
object identity of the face (assigned sequentially at parse time). -/
structure FaceL where
  fid : Nat
  nodes_ids : List Int
  nodes : List Nat
  edges : List Nat
deriving DecidableEq

/-- Edge: an unordered pair of canonical node references plus the list of
incident faces (by `fid`).  Modelled from the spec data model. -/
structure EdgeL where
  a : Nat
  b : Nat
  faces : List Nat
deriving DecidableEq

/-- Zone sub-view: canonical node references in local-index order, and the
zone's face list. -/
structure ZoneSt where
  Nodes : List Nat
  Faces : List FaceL
deriving DecidableEq

/-- The Mesh Graph (`Grid`): canonical nodes (append-only), the x-sorted
index over them used by the dichotomy strategies (spec §4.1), edges, the
global face sequence and the zones. -/
structure GridSt where
  Nodes : List Node
  SortedIdx : List Nat
  Edges : List EdgeL
  Faces : List FaceL
  Zones : List ZoneSt
deriving DecidableEq

/-- The empty grid. -/
def g0 : GridSt := ⟨[], [], [], [], []⟩

/-- Python list indexing semantics: `l[k]` for `0 ≤ k < len` is plain
indexing, `-len ≤ k < 0` counts from the end, anything else raises
`IndexError` (here: `none`). -/
def pyGet (l : List α) (k : Int) : Option α :=
  if 0 ≤ k then l.get? k.toNat
  else if 0 ≤ k + l.length then l.get? (k + l.length).toNat
  else none

/-! ### Node matcher strategies (modelled from the spec)

The three search strategies live in the missing module `node_algorithms`;
they are modelled from spec §4.2.  Each step takes the grid and one
candidate node and returns the updated grid together with the canonical
reference (position in `GridSt.Nodes`) resolved for the candidate.
`GridSt.Nodes` is append-only, so references are stable; the dichotomy
strategies maintain `GridSt.SortedIdx`, the x-sorted index (spec §4.1). -/

/-- Modelled from the spec: the linear scan of `n_square` — return the
position of the first stored node whose x and y both compare exactly equal
to the candidate. -/
def findEq (c : Node) : List Node → Option Nat
  | [] => none
  | n :: rest => if n = c then some 0 else (findEq c rest).map (· + 1)

/-- Modelled from the spec: one `n_square` resolution — scan every existing
canonical node in store order; on a miss append the candidate. -/
def nSquareStep (g : GridSt) (c : Node) : GridSt × Nat :=
  match findEq c g.Nodes with
  | some j => (g, j)
  | none => ({ g with Nodes := g.Nodes ++ [c] }, g.Nodes.length)

/-- The x-coordinate of the stored node referenced by position `i` (0 for a
dangling reference, which the maintained index never contains). -/
def xAt (g : GridSt) (i : Nat) : Int :=
  ((g.Nodes.get? i).map Node.x).getD 0

/-- Modelled from the spec: the binary search of the dichotomy strategies
lands on the lower bound — the leftmost position of the x-sorted index whose
x-coordinate is not below the candidate's. -/
def lowerBound (g : GridSt) (cx : Int) : Nat :=
  (g.SortedIdx.takeWhile (fun i => decide (xAt g i < cx))).length

/-- Modelled from the spec: scan along a run of the sorted index while the
x-coordinate stays equal to the candidate's, returning the first reference
whose y-coordinate also matches. -/
def scanRun (g : GridSt) (c : Node) : List Nat → Option Nat
  | [] => none
  | i :: rest =>
    match g.Nodes.get? i with
    | none => none
    | some n =>
      if n.x = c.x then
        if n.y = c.y then some i else scanRun g c rest
      else none

/-- Modelled from the spec: `dichotomy_1_sided` search — from the lower
bound, scan rightward through the x-equal run for a y match. -/
def d1Find (g : GridSt) (c : Node) : Option Nat :=
  scanRun g c (g.SortedIdx.drop (lowerBound g c.x))

/-- Modelled from the spec: `dichotomy_2_sided` search — like the one-sided
search but additionally scanning leftward from the landing position. -/
def d2Find (g : GridSt) (c : Node) : Option Nat :=
  match scanRun g c (g.SortedIdx.drop (lowerBound g c.x)) with
  | some i => some i
  | none => scanRun g c ((g.SortedIdx.take (lowerBound g c.x)).reverse)

/-- Modelled from the spec: insertion for the dichotomy strategies — append
the candidate to the canonical store and splice its reference into the
sorted index at the position that preserves x-sortedness. -/
def insertSorted (g : GridSt) (c : Node) : GridSt × Nat :=
  let lb := lowerBound g c.x
  ({ g with
      Nodes := g.Nodes ++ [c],
      SortedIdx := g.SortedIdx.take lb ++ g.Nodes.length :: g.SortedIdx.drop lb },
   g.Nodes.length)

/-- Modelled from the spec: one `dichotomy_1_sided` resolution. -/
def dichotomy1Step (g : GridSt) (c : Node) : GridSt × Nat :=
  match d1Find g c with
  | some j => (g, j)
  | none => insertSorted g c

/-- Modelled from the spec: one `dichotomy_2_sided` resolution. -/
def dichotomy2Step (g : GridSt) (c : Node) : GridSt × Nat :=
  match d2Find g c with
  | some j => (g, j)
  | none => insertSorted g c

/-- Resolve a whole zone node list through one strategy step function,
returning the grid and the local-index to canonical-reference mapping
(spec §4.3 step 1). -/
def insertZone (s : GridSt → Node → GridSt × Nat) (g : GridSt) :
    List Node → GridSt × List Nat
  | [] => (g, [])
  | c :: rest =>
    let p := s g c
    let r := insertZone s p.1 rest
    (r.1, p.2 :: r.2)

/-- Modelled from the spec: `n_square` over a zone's node list. -/
def nSquare (g : GridSt) (ns : List Node) : GridSt × List Nat :=
  insertZone nSquareStep g ns

/-- Modelled from the spec: `dichotomy_1_sided` over a zone's node list. -/
def dichotomy1Sided (g : GridSt) (ns : List Node) : GridSt × List Nat :=
  insertZone dichotomy1Step g ns

/-- Modelled from the spec: `dichotomy_2_sided` over a zone's node list. -/
def dichotomy2Sided (g : GridSt) (ns : List Node) : GridSt × List Nat :=
  insertZone dichotomy2Step g ns

/-- The strategy dispatch of `set_nodes` for one zone (the three `if`
branches of the source; an unknown name, unreachable under `read_tecplot`'s
guard, resolves nothing). -/
def setNodesZone (alg : String) (g : GridSt) (ns : List Node) :
    GridSt × List Nat :=
  if alg = "n_square" then nSquare g ns
  else if alg = "dichotomy_1_sided" then dichotomy1Sided g ns
  else if alg = "dichotomy_2_sided" then dichotomy2Sided g ns
  else (g, ns.map (fun _ => 0))

/-- `set_nodes`: fill `grid.Nodes` with the unique nodes of each zone,
returning the per-zone local-to-canonical mappings. -/
def setNodes (alg : String) (g : GridSt) :
    List (List Node) → GridSt × List (List Nat)
  | [] => (g, [])
  | ns :: rest =>
    let p := setNodesZone alg g ns
    let r := setNodes alg p.1 rest
    (r.1, p.2 :: r.2)

/-- The three defined merge strategy names (`read_tecplot`'s guard). -/
def algNames : List String := ["n_square", "dichotomy_1_sided", "dichotomy_2_sided"]

/-! ### Topology builder: `set_faces` and its edge bookkeeping -/

/-- Python exception kinds raised by the embedded functions: the
`Exception('Wrong name for algorithm')` of `read_tecplot`, `IndexError`
from list indexing, `ValueError` from `list.index`, `AssertionError` from
the multizone assert. -/
inductive PyExc
  | wrongName
  | indexError
  | valueError
  | assertionError
deriving DecidableEq

/-- Unordered-pair test: does edge `e` connect canonical nodes `a` and `b`? -/
def edgeMatch (a b : Nat) (e : EdgeL) : Bool :=
  (decide (e.a = a) && decide (e.b = b)) || (decide (e.a = b) && decide (e.b = a))

/-- Modelled from the spec: `Grid.is_edge_present` of the missing `grid`
module — look up whether an edge already connects the unordered pair,
returning its position in `grid.Edges` (spec §4.3 step 2 allows an
equivalent pair lookup in place of the incident-set intersection). -/
def isEdgePresent (a b : Nat) : List EdgeL → Option Nat
  | [] => none
  | e :: rest =>
    if edgeMatch a b e then some 0 else (isEdgePresent a b rest).map (· + 1)

/-- The number of edges of a list connecting the unordered pair `(a, b)`. -/
def countMatch (a b : Nat) : List EdgeL → Nat
  | [] => 0
  | e :: rest => (if edgeMatch a b e then 1 else 0) + countMatch a b rest

/-- In-place update of one list position (Python mutates the stored edge
object; out-of-range positions leave the list unchanged). -/
def listModify (h : α → α) : List α → Nat → List α
  | [], _ => []
  | x :: t, 0 => h x :: t
  | x :: t, k + 1 => x :: listModify h t k

/-- One get-or-create block of `set_faces` for the pair `(a, b)`: if no edge
connects the pair, create one, link it to the face and both nodes and append
it to `grid.Edges`; otherwise link the face to the existing edge. -/
def edgeStep (g : GridSt) (f : FaceL) (a b : Nat) : GridSt × FaceL :=
  match isEdgePresent a b g.Edges with
  | none =>
    ({ g with Edges := g.Edges ++ [⟨a, b, [f.fid]⟩] },
     { f with edges := f.edges ++ [g.Edges.length] })
  | some j =>
    ({ g with Edges := listModify (fun e => { e with faces := e.faces ++ [f.fid] }) g.Edges j },
     { f with edges := f.edges ++ [j] })

/-- Resolve the `k`-th 1-based local index of a face record through the
zone's node list: `nodes[f.nodes_ids[k] - 1]` with Python indexing. -/
def resolve (m : List Nat) (ids : List Int) (k : Nat) : Option Nat :=
  match ids.get? k with
  | none => none
  | some v => pyGet m (v - 1)

/-- The body of `set_faces` for one face: resolve the three local indices
(raising `IndexError` exactly where Python would), link the face to its
three canonical nodes, then run the three edge get-or-create blocks for the
pairs (1,2), (2,3), (3,1). -/
def processFace (g : GridSt) (m : List Nat) (f : FaceL) :
    Except PyExc (GridSt × FaceL) :=
  match resolve m f.nodes_ids 0, resolve m f.nodes_ids 1, resolve m f.nodes_ids 2 with
  | some n1, some n2, some n3 =>
    let f1 := { f with nodes := f.nodes ++ [n1, n2, n3] }
    let s1 := edgeStep g f1 n1 n2
    let s2 := edgeStep s1.1 s1.2 n2 n3
    let s3 := edgeStep s2.1 s2.2 n3 n1
    .ok s3
  | _, _, _ => .error .indexError

/-- `set_faces`: link the faces of one zone against its canonical node
mapping.  An exception carries the grid state at the moment of the raise
(the caller's grid object keeps every mutation made before it). -/
def setFaces (g : GridSt) (m : List Nat) :
    List FaceL → Except (PyExc × GridSt) (GridSt × List FaceL)
  | [] => .ok (g, [])
  | f :: rest =>
    match processFace g m f with
    | .error e => .error (e, g)
    | .ok gf =>
      match setFaces gf.1 m rest with
      | .error es => .error es
      | .ok gfs => .ok (gfs.1, gf.2 :: gfs.2)

/-! ### Parsing and `read_tecplot` -/

/-- One zone block of the input file, with tokenization abstracted: the
values parsed from the two coordinate lines and, per connectivity line, the
parsed index list. -/
structure ZoneInput where
  xs : List Int
  ys : List Int
  faceIds : List (List Int)
deriving DecidableEq

/-- Face objects created for one zone's connectivity lines; `fid0` is the
first identity tag (the model's stand-in for Python object identity). -/
def mkFaces : Nat → List (List Int) → List FaceL
  | _, [] => []
  | k, ids :: rest => ⟨k, ids, [], []⟩ :: mkFaces (k + 1) rest

/-- `parce_nodes_and_faces` at value level: nodes are the zipped coordinate
pairs (surplus values on either line are dropped by `zip`), faces carry the
parsed index lists in input order. -/
def parceNodesAndFaces (fid0 : Nat) (zi : ZoneInput) : List Node × List FaceL :=
  (List.zipWith (fun x y => Node.mk x y) zi.xs zi.ys, mkFaces fid0 zi.faceIds)

/-- Parse every zone block, threading the face identity counter. -/
def parsePhase (fid0 : Nat) : List ZoneInput → List (List Node × List FaceL)
  | [] => []
  | zi :: rest =>
    let p := parceNodesAndFaces fid0 zi
    p :: parsePhase (fid0 + p.2.length) rest

/-- The face loop of `read_tecplot`: per zone, run `set_faces` and append
the linked faces to `grid.Faces`; returns the per-zone linked face lists. -/
def facesPhase (g : GridSt) :
    List (List Nat × List FaceL) → Except (PyExc × GridSt) (GridSt × List (List FaceL))
  | [] => .ok (g, [])
  | job :: rest =>
    match setFaces g job.1 job.2 with
    | .error es => .error es
    | .ok gfs =>
      match facesPhase { gfs.1 with Faces := gfs.1.Faces ++ gfs.2 } rest with
      | .error es => .error es
      | .ok gps => .ok (gps.1, gfs.2 :: gps.2)

/-- Zone objects assembled from per-zone node mappings and face lists. -/
def zonesOf (maps : List (List Nat)) (pfs : List (List FaceL)) : List ZoneSt :=
  (maps.zip pfs).map (fun p => ZoneSt.mk p.1 p.2)

/-- The parse loop of `read_tecplot` (lines creating the per-zone node and
face lists), with the face identity counter starting after `grid.Faces`. -/
def parsedOf (g : GridSt) (zs : List ZoneInput) : List (List Node × List FaceL) :=
  parsePhase g.Faces.length zs

/-- The `set_nodes` call of `read_tecplot` over all parsed zone node
lists. -/
def gmOf (g : GridSt) (zs : List ZoneInput) (alg : String) :
    GridSt × List (List Nat) :=
  setNodes alg g ((parsedOf g zs).map (·.1))

/-- The per-zone jobs of the face loop: each zone's canonical node mapping
zipped with its parsed faces (the `zip(faces, nodes)` of the source). -/
def jobsOf (g : GridSt) (zs : List ZoneInput) (alg : String) :
    List (List Nat × List FaceL) :=
  (gmOf g zs alg).2.zip ((parsedOf g zs).map (·.2))

/-- The grid right before the face loop: all zones appended (their node
lists already canonicalized in place by `set_nodes`), nodes committed. -/
def gridPre (g : GridSt) (zs : List ZoneInput) (alg : String) : GridSt :=
  { (gmOf g zs alg).1 with
    Zones := g.Zones ++ zonesOf (gmOf g zs alg).2 ((parsedOf g zs).map (·.2)) }

/-- `read_tecplot`: guard the strategy name, parse the zone blocks, append
the zones, canonicalize all nodes (`set_nodes`), then build faces and edges
zone by zone (zone face lists end up holding the linked face objects).  An
error carries the caller's grid as mutated so far; the strategy-name guard
fires before anything is read or mutated. -/
def readTecplot (g : GridSt) (zs : List ZoneInput) (alg : String) :
    Except (PyExc × GridSt) GridSt :=
  if alg ∈ algNames then
    match facesPhase (gridPre g zs alg) (jobsOf g zs alg) with
    | .error es => .error es
    | .ok gps =>
      .ok { gps.1 with Zones := g.Zones ++ zonesOf (gmOf g zs alg).2 gps.2 }
  else .error (.wrongName, g)

/-! ### Output adapter (`print_tecplot` family)

The file being written is modelled as the list of lines produced so far; a
function returns the lines it wrote together with the exception, if any,
that interrupted it. -/

/-- The two lines of `print_tecplot_header` (written in `'w'` mode, i.e.
they are the whole file content at that point). -/
def tecplotHeaderLines : List String :=
  ["TITLE = \"GRID\"", "VARIABLES = \"X\", \"Y\""]

/-- The five lines of `print_zone_header`. -/
def printZoneHeader (name : String) (nn nf : Nat) : List String :=
  ["ZONE T = \"" ++ name ++ "\"",
   "NODES = " ++ toString nn,
   "ELEMENTS = " ++ toString nf,
   "DATAPACKING = BLOCK",
   "ZONETYPE = FETRIANGLE"]

/-- Space-terminated token join, as produced by writing `tok + ' '` per
element. -/
def joinTokens : List String → String
  | [] => ""
  | t :: rest => t ++ " " ++ joinTokens rest

/-- The two coordinate lines of `print_variables`. -/
def printVariables (nodes : List Node) : List String :=
  [joinTokens (nodes.map (fun n => toString n.x)),
   joinTokens (nodes.map (fun n => toString n.y))]

/-- `list.index`: position of the first occurrence, `ValueError` (`none`) if
absent.  Node objects are compared by identity, i.e. by canonical
reference. -/
def idxOf (x : Nat) : List Nat → Option Nat
  | [] => none
  | y :: rest => if y = x then some 0 else (idxOf x rest).map (· + 1)

/-- One connectivity line: for each linked node of the face, in stored
order, the 1-based position of that node in the enumeration `nodes`,
each token followed by a space. -/
def connLine (nodes : List Nat) : List Nat → Option String
  | [] => some ""
  | n :: rest =>
    match idxOf n nodes with
    | none => none
    | some i =>
      match connLine nodes rest with
      | none => none
      | some s => some (toString (i + 1) ++ " " ++ s)

/-- `print_connectivity_list`: one line per face; a `ValueError` interrupts
the loop, keeping the lines already written. -/
def printConnectivityList (nodes : List Nat) :
    List FaceL → List String × Option PyExc
  | [] => ([], none)
  | f :: rest =>
    match connLine nodes f.nodes with
    | none => ([], some .valueError)
    | some s =>
      let r := printConnectivityList nodes rest
      (s :: r.1, r.2)

/-- The node objects of a zone (canonical references resolved through the
grid store), as enumerated by the per-zone output mode. -/
def zoneNodeObjs (g : GridSt) (z : ZoneSt) : List Node :=
  z.Nodes.map (fun i => g.Nodes.getD i (Node.mk 0 0))

/-- `print_zones`: per-zone header, variables and connectivity, numbering
zone titles from 1. -/
def printZones (g : GridSt) : List ZoneSt → Nat → List String × Option PyExc
  | [], _ => ([], none)
  | z :: rest, i =>
    let hdr := printZoneHeader ("ZONE " ++ toString (i + 1)) z.Nodes.length z.Faces.length
    let vars := printVariables (zoneNodeObjs g z)
    let conn := printConnectivityList z.Nodes z.Faces
    match conn.2 with
    | some e => (hdr ++ vars ++ conn.1, some e)
    | none =>
      let r := printZones g rest (i + 1)
      (hdr ++ vars ++ conn.1 ++ r.1, r.2)

/-- `print_merged_grid`: assert the grid is multizone, then print the whole
grid as a single zone using global numbering (a node object's position in
`grid.Nodes` is its canonical reference). -/
def printMergedGrid (g : GridSt) : List String × Option PyExc :=
  if g.Zones.length > 1 then
    let hdr := printZoneHeader "ZONE 1" g.Nodes.length g.Faces.length
    let vars := printVariables g.Nodes
    let conn := printConnectivityList (List.range g.Nodes.length) g.Faces
    (hdr ++ vars ++ conn.1, conn.2)
  else ([], some .assertionError)

/-- `print_tecplot`: write the header, then either the merged grid or the
zones; the pair is (lines the file received, interrupting exception). -/
def printTecplot (g : GridSt) (merge : Bool) : List String × Option PyExc :=
  let r := if merge then printMergedGrid g else printZones g g.Zones 0
  (tecplotHeaderLines ++ r.1, r.2)

/-! ### Helpers for stating results -/

/-- The exception kind of a failed run. -/
def errKind : Except (PyExc × GridSt) α → Option PyExc
  | .error e => some e.1
  | .ok _ => none

/-- The grid state carried by a failed run (the caller's mutated grid). -/
def errGrid : Except (PyExc × GridSt) α → Option GridSt
  | .error e => some e.2
  | .ok _ => none

/-- The grid of a successful run, or the mutated grid of a failed one. -/
def extractOk : Except (PyExc × GridSt) GridSt → GridSt
  | .ok g => g
  | .error e => e.2

/-- A face record whose processing raises `IndexError`: fewer than three
indices, or one of the first three indices resolving out of range even
after Python's negative-index wrap-around. -/
def BadFace (n : Nat) (f : FaceL) : Prop :=
  f.nodes_ids.length < 3 ∨
    ∃ v ∈ f.nodes_ids.take 3, ((n : Int) < v ∨ v ≤ -(n : Int))

instance (n : Nat) (f : FaceL) : Decidable (BadFace n f) :=
  decidable_of_iff
    (f.nodes_ids.length < 3 ∨
      ∃ v ∈ f.nodes_ids.take 3, ((n : Int) < v ∨ v ≤ -(n : Int)))
    Iff.rfl

/-! ### Concrete example inputs -/

/-- Zone A of spec example 2: nodes (0,0), (1,0), (0,1), one face 1 2 3. -/
def zoneA : ZoneInput := ⟨[0, 1, 0], [0, 0, 1], [[1, 2, 3]]⟩

/-- Zone B of spec example 2: nodes (1,0), (0,1), (1,1), one face 1 2 3. -/
def zoneB : ZoneInput := ⟨[1, 0, 1], [0, 1, 1], [[1, 2, 3]]⟩

/-- A zone whose second face references local node 4 among only 3 nodes. -/
def zoneBad : ZoneInput := ⟨[0, 1, 0], [0, 0, 1], [[1, 2, 3], [1, 2, 4]]⟩

/-- The grid built by merging `zoneA` alone. -/
def gA : GridSt := extractOk (readTecplot g0 [zoneA] "n_square")

/-- The grid built by merging `zoneA` then `zoneB`. -/
def gW : GridSt := extractOk (readTecplot g0 [zoneA, zoneB] "n_square")

/-- A resolution step that, on a candidate absent from the store, appends
exactly the candidate to `Nodes`. -/
def StepSound (s : GridSt → Node → GridSt × Nat) : Prop :=
  ∀ g c, c ∉ g.Nodes → ((s g c).1).Nodes = g.Nodes ++ [c]

/-- The 0-based position the output stage uses for a node (first occurrence
in the enumeration). -/
def posOf (nodes : List Nat) (n : Nat) : Nat := (idxOf n nodes).getD 0

/-- The intended rendering of one connectivity line: for each face node in
stored order, the 1-based ordinal position, space-terminated. -/
def mkConnLine (nodes : List Nat) (fns : List Nat) : String :=
  joinTokens (fns.map (fun n => toString (posOf nodes n + 1)))

/-- Placeholder edge for positional access. -/
def dummyE : EdgeL := ⟨0, 0, []⟩

/-- The pair `(a, b)` is linked exactly once in the grid, and its unique
edge is recorded in the edge list `es` (a face's `edges` field) and carries
the face identity `fid` in its incident-face list. -/
def PairLinked (g : GridSt) (fid : Nat) (es : List Nat) (a b : Nat) : Prop :=
  countMatch a b g.Edges = 1 ∧
  ∀ j, j < g.Edges.length → edgeMatch a b (g.Edges.getD j dummyE) = true →
    j ∈ es ∧ fid ∈ (g.Edges.getD j dummyE).faces

/-- Every unordered node pair is connected by at most one edge. -/
def UniqInv (g : GridSt) : Prop := ∀ a b, countMatch a b g.Edges ≤ 1

/-- Every pair of distinct nodes of the face is properly linked. -/
def FaceLinked (g : GridSt) (f : FaceL) : Prop :=
  ∀ a b, a ∈ f.nodes → b ∈ f.nodes → a ≠ b → PairLinked g f.fid f.edges a b

/-- Grid evolution preserving every established pair linkage. -/
def PLpres (g g' : GridSt) : Prop :=
  ∀ fid es a b, PairLinked g fid es a b → PairLinked g' fid es a b

/-! ### Basic list lemmas -/

theorem zipWith_node_length (xs ys : List Int) :
    (List.zipWith (fun x y => Node.mk x y) xs ys).length = min xs.length ys.length := by
  simp [List.length_zipWith]

theorem zipWith_node_map_x : ∀ (xs ys : List Int),
    (List.zipWith (fun x y => Node.mk x y) xs ys).map Node.x =
      xs.take (min xs.length ys.length)
  | [], _ => by simp
  | _ :: _, [] => by simp
  | x :: xs, y :: ys => by
    simp [Nat.succ_min_succ, List.take_succ_cons, zipWith_node_map_x xs ys]

theorem zipWith_node_map_y : ∀ (xs ys : List Int),
    (List.zipWith (fun x y => Node.mk x y) xs ys).map Node.y =
      ys.take (min xs.length ys.length)
  | [], _ => by simp
  | _ :: _, [] => by simp
  | x :: xs, y :: ys => by
    simp [Nat.succ_min_succ, List.take_succ_cons, zipWith_node_map_y xs ys]

/-- C10: for every zone block, the number of nodes created equals the
minimum of the number of x-values and the number of y-values, the surplus
of the longer line being dropped silently (the function is total: no error
is reported). -/
theorem parce_node_count (fid0 : Nat) (zi : ZoneInput) :
    ((parceNodesAndFaces fid0 zi).1).length = min zi.xs.length zi.ys.length ∧
    ((parceNodesAndFaces fid0 zi).1).map Node.x =
      zi.xs.take (min zi.xs.length zi.ys.length) ∧
    ((parceNodesAndFaces fid0 zi).1).map Node.y =
      zi.ys.take (min zi.xs.length zi.ys.length) :=
  ⟨zipWith_node_length zi.xs zi.ys, zipWith_node_map_x zi.xs zi.ys,
    zipWith_node_map_y zi.xs zi.ys⟩

/-- C3: merging zone A = (0,0),(1,0),(0,1) with face (1,2,3) and then
zone B = (1,0),(0,1),(1,1) with face (1,2,3) into an empty grid yields 4
canonical nodes, 5 edges and 2 faces, under each of the three strategies. -/
theorem two_zone_merge_counts :
    ((readTecplot g0 [zoneA, zoneB] "n_square").toOption.map
      (fun g => (g.Nodes.length, g.Edges.length, g.Faces.length)) = some (4, 5, 2)) ∧
    ((readTecplot g0 [zoneA, zoneB] "dichotomy_1_sided").toOption.map
      (fun g => (g.Nodes.length, g.Edges.length, g.Faces.length)) = some (4, 5, 2)) ∧
    ((readTecplot g0 [zoneA, zoneB] "dichotomy_2_sided").toOption.map
      (fun g => (g.Nodes.length, g.Edges.length, g.Faces.length)) = some (4, 5, 2)) := by
  refine ⟨?_, ?_, ?_⟩ <;> rfl

/-- C6 counterexample: requesting merged output for a single-zone grid does
write content into the target file (the two header lines) before the
precondition failure is raised, so the file does not stay empty. -/
theorem merged_print_single_zone_writes_header :
    (printTecplot gA true).1 ≠ [] ∧
    (printTecplot gA true).2 = some PyExc.assertionError := by
  exact ⟨by decide, rfl⟩

/-- C6 (amended): requesting merged output for a grid with fewer than two
zones fails with the assertion (precondition) error before any zone data is
written, but only after the fixed two-line tecplot header has already been
written to the target file. -/
theorem merged_print_guard (g : GridSt) (h : g.Zones.length < 2) :
    printTecplot g true = (tecplotHeaderLines, some PyExc.assertionError) := by
  have hn : ¬ (g.Zones.length > 1) := by omega
  simp [printTecplot, printMergedGrid, hn]

/-- Witness for `merged_print_guard` at the one-zone grid `gA`. -/
theorem merged_print_guard_witness :
    gA.Zones.length < 2 ∧
    printTecplot gA true = (tecplotHeaderLines, some PyExc.assertionError) :=
  ⟨by decide, merged_print_guard gA (by decide)⟩

/-! ### Exception kinds of the merge pipeline -/

theorem processFace_err_kind {g : GridSt} {m : List Nat} {f : FaceL} {e : PyExc}
    (h : processFace g m f = .error e) : e = PyExc.indexError := by
  rcases h0 : resolve m f.nodes_ids 0 with _ | n1 <;>
    rcases h1 : resolve m f.nodes_ids 1 with _ | n2 <;>
      rcases h2 : resolve m f.nodes_ids 2 with _ | n3 <;>
        simp [processFace, h0, h1, h2] at h <;> exact h.symm

theorem setFaces_err_kind (m : List Nat) :
    ∀ (faces : List FaceL) (g : GridSt) (es : PyExc × GridSt),
      setFaces g m faces = .error es → es.1 = PyExc.indexError := by
  intro faces
  induction faces with
  | nil => intro g es h; simp [setFaces] at h
  | cons f rest ih =>
    intro g es h
    cases hp : processFace g m f with
    | error e =>
      simp only [setFaces, hp] at h
      injection h with h2
      subst h2
      exact processFace_err_kind hp
    | ok gf =>
      cases hr : setFaces gf.1 m rest with
      | error es2 =>
        simp only [setFaces, hp, hr] at h
        injection h with h2
        subst h2
        exact ih gf.1 _ hr
      | ok gfs => simp only [setFaces, hp, hr] at h; exact Except.noConfusion h

theorem facesPhase_err_kind :
    ∀ (jobs : List (List Nat × List FaceL)) (g : GridSt) (es : PyExc × GridSt),
      facesPhase g jobs = .error es → es.1 = PyExc.indexError := by
  intro jobs
  induction jobs with
  | nil => intro g es h; simp [facesPhase] at h
  | cons job rest ih =>
    intro g es h
    cases hs : setFaces g job.1 job.2 with
    | error es2 =>
      simp only [facesPhase, hs] at h
      injection h with h2
      subst h2
      exact setFaces_err_kind job.1 job.2 g _ hs
    | ok gfs =>
      cases hr : facesPhase { gfs.1 with Faces := gfs.1.Faces ++ gfs.2 } rest with
      | error es2 =>
        simp only [facesPhase, hs, hr] at h
        injection h with h2
        subst h2
        exact ih _ _ hr
      | ok gps => simp only [facesPhase, hs, hr] at h; exact Except.noConfusion h

/-- C7: an algorithm name outside the three defined ones makes
`read_tecplot` fail at call time with the wrong-name error, independently of
the file content and with the grid returned untouched; for the three defined
names that error is never raised. -/
theorem algorithm_guard :
    (∀ (g : GridSt) (zs : List ZoneInput) (alg : String), alg ∉ algNames →
      readTecplot g zs alg = .error (.wrongName, g)) ∧
    (∀ (g : GridSt) (zs : List ZoneInput) (alg : String) (st : GridSt),
      alg ∈ algNames → readTecplot g zs alg ≠ .error (.wrongName, st)) := by
  constructor
  · intro g zs alg h
    simp [readTecplot, h]
  · intro g zs alg st h hc
    simp only [readTecplot, if_pos h] at hc
    rcases hfp : facesPhase (gridPre g zs alg) (jobsOf g zs alg) with es | gps
    · rw [hfp] at hc
      injection hc with hc2
      have := facesPhase_err_kind _ _ _ hfp
      rw [hc2] at this
      simp at this
    · rw [hfp] at hc
      exact Except.noConfusion hc

/-- Witness for `algorithm_guard`: a bogus name fails with the wrong-name
error and an untouched grid; the defined name does not. -/
theorem algorithm_guard_witness :
    readTecplot g0 [zoneA] "foo" = .error (.wrongName, g0) ∧
    readTecplot g0 [zoneA] "n_square" ≠ .error (.wrongName, g0) :=
  ⟨algorithm_guard.1 g0 [zoneA] "foo" (by decide),
   algorithm_guard.2 g0 [zoneA] "n_square" g0 (by decide)⟩

/-! ### Malformed connectivity -/

theorem pyGet_none {α : Type _} (l : List α) (w : Int)
    (h : (l.length : Int) ≤ w ∨ w + l.length < 0) : pyGet l w = none := by
  unfold pyGet
  rcases h with h | h
  · rw [if_pos (by omega)]
    apply List.get?_eq_none.mpr
    omega
  · rw [if_neg (by omega), if_neg (by omega)]

theorem mem_take_get : ∀ (l : List Int) (m : Nat) (v : Int), v ∈ l.take m →
    ∃ k, k < m ∧ l.get? k = some v := by
  intro l
  induction l with
  | nil => intro m v h; simp at h
  | cons x t ih =>
    intro m v h
    cases m with
    | zero => simp at h
    | succ m' =>
      rw [List.take_succ_cons] at h
      rcases List.mem_cons.mp h with h | h
      · exact ⟨0, Nat.succ_pos _, by simp [h]⟩
      · obtain ⟨k, hk, hg⟩ := ih m' v h
        exact ⟨k + 1, Nat.succ_lt_succ hk, by simpa using hg⟩

theorem resolve_none_of_short {m : List Nat} {ids : List Int}
    (h : ids.length < 3) : resolve m ids 2 = none := by
  unfold resolve
  rw [List.get?_eq_none.mpr (by omega)]

theorem resolve_none_of_bad {m : List Nat} {ids : List Int} {k : Nat} {v : Int}
    (hg : ids.get? k = some v)
    (hb : (m.length : Int) < v ∨ v ≤ -(m.length : Int)) :
    resolve m ids k = none := by
  unfold resolve
  rw [hg]
  apply pyGet_none
  omega

set_option linter.unnecessarySeqFocus false in
theorem processFace_bad {g : GridSt} {m : List Nat} {f : FaceL}
    (hb : BadFace m.length f) : processFace g m f = .error .indexError := by
  have hnone : resolve m f.nodes_ids 0 = none ∨ resolve m f.nodes_ids 1 = none ∨
      resolve m f.nodes_ids 2 = none := by
    rcases hb with h | ⟨v, hv, hbad⟩
    · exact Or.inr (Or.inr (resolve_none_of_short h))
    · obtain ⟨k, hk, hg⟩ := mem_take_get _ 3 v hv
      interval_cases k
      · exact Or.inl (resolve_none_of_bad hg hbad)
      · exact Or.inr (Or.inl (resolve_none_of_bad hg hbad))
      · exact Or.inr (Or.inr (resolve_none_of_bad hg hbad))
  rcases h0 : resolve m f.nodes_ids 0 with _ | n1 <;>
    rcases h1 : resolve m f.nodes_ids 1 with _ | n2 <;>
      rcases h2 : resolve m f.nodes_ids 2 with _ | n3 <;>
        simp [processFace, h0, h1, h2] <;> simp_all

theorem setFaces_bad (m : List Nat) :
    ∀ (faces : List FaceL) (g : GridSt) (f : FaceL), f ∈ faces →
      BadFace m.length f →
      ∃ st, setFaces g m faces = .error (.indexError, st) := by
  intro faces
  induction faces with
  | nil => intro g f hf _; simp at hf
  | cons f' rest ih =>
    intro g f hf hb
    rcases List.mem_cons.mp hf with rfl | hf'
    · exact ⟨g, by simp [setFaces, processFace_bad hb]⟩
    · cases hp : processFace g m f' with
      | error e =>
        cases processFace_err_kind hp
        exact ⟨g, by simp [setFaces, hp]⟩
      | ok gf =>
        obtain ⟨st, hst⟩ := ih gf.1 f hf' hb
        exact ⟨st, by simp [setFaces, hp, hst]⟩

/-- C5 (amended): a face record with fewer than three indices, or whose
index `v` resolves out of range even under Python's negative indexing
(`v > n` or `v ≤ -n` for a zone of `n` local nodes), makes `set_faces`
raise `IndexError` synchronously; indices in `[1 - n, 0]`, although outside
the documented range `[1, n]`, are silently resolved by wrap-around. -/
theorem setFaces_bad_index_raises (g : GridSt) (m : List Nat)
    (faces : List FaceL) (f : FaceL) (hf : f ∈ faces)
    (hb : BadFace m.length f) :
    errKind (setFaces g m faces) = some PyExc.indexError := by
  obtain ⟨st, h⟩ := setFaces_bad m faces g f hf hb
  rw [h]
  rfl

/-- Witness for `setFaces_bad_index_raises`: index 5 with 3 local nodes. -/
theorem setFaces_bad_index_raises_witness :
    (⟨0, [5, 1, 2], [], []⟩ : FaceL) ∈ [(⟨0, [5, 1, 2], [], []⟩ : FaceL)] ∧
    BadFace 3 ⟨0, [5, 1, 2], [], []⟩ ∧
    errKind (setFaces g0 [0, 1, 2] [⟨0, [5, 1, 2], [], []⟩]) =
      some PyExc.indexError :=
  ⟨by decide, by decide,
    setFaces_bad_index_raises g0 [0, 1, 2] [⟨0, [5, 1, 2], [], []⟩]
      ⟨0, [5, 1, 2], [], []⟩ (by decide) (by decide)⟩

/-- C5 counterexample: local index 0 lies outside `[1, 3]` for a 3-node
zone, yet `set_faces` raises nothing — Python's `nodes[0 - 1]` silently
resolves to the last node (canonical reference 30 here), so the face links
nodes `[30, 10, 20]`. -/
theorem index_zero_wraps_silently :
    (setFaces g0 [10, 20, 30] [⟨0, [0, 1, 2], [], []⟩]).toOption.map
      (fun p => p.2.map FaceL.nodes) = some [[30, 10, 20]] := by
  decide

/-! ### Structure preservation through the pipeline -/

theorem edgeStep_pres (g : GridSt) (f : FaceL) (a b : Nat) :
    (edgeStep g f a b).1.Nodes = g.Nodes ∧ (edgeStep g f a b).1.Faces = g.Faces ∧
    (edgeStep g f a b).1.Zones = g.Zones ∧
    (edgeStep g f a b).2.nodes_ids = f.nodes_ids ∧
    (edgeStep g f a b).2.fid = f.fid ∧ (edgeStep g f a b).2.nodes = f.nodes := by
  cases he : isEdgePresent a b g.Edges <;> simp [edgeStep, he]

theorem processFace_pres {g : GridSt} {m : List Nat} {f : FaceL}
    {r : GridSt × FaceL} (h : processFace g m f = .ok r) :
    r.1.Nodes = g.Nodes ∧ r.1.Faces = g.Faces ∧ r.1.Zones = g.Zones ∧
    r.2.nodes_ids = f.nodes_ids ∧ r.2.fid = f.fid := by
  rcases h0 : resolve m f.nodes_ids 0 with _ | n1 <;>
    rcases h1 : resolve m f.nodes_ids 1 with _ | n2 <;>
      rcases h2 : resolve m f.nodes_ids 2 with _ | n3 <;>
        simp only [processFace, h0, h1, h2] at h <;> try exact Except.noConfusion h
  injection h with h3
  subst h3
  have A := edgeStep_pres g { f with nodes := f.nodes ++ [n1, n2, n3] } n1 n2
  generalize hs1 : edgeStep g { f with nodes := f.nodes ++ [n1, n2, n3] } n1 n2 = s1 at A ⊢
  have B := edgeStep_pres s1.1 s1.2 n2 n3
  generalize hs2 : edgeStep s1.1 s1.2 n2 n3 = s2 at B ⊢
  obtain ⟨a1, a2, a3, a4, a5, a6⟩ := A
  obtain ⟨b1, b2, b3, b4, b5, b6⟩ := B
  obtain ⟨c1, c2, c3, c4, c5, c6⟩ := edgeStep_pres s2.1 s2.2 n3 n1
  exact ⟨by rw [c1, b1, a1], by rw [c2, b2, a2], by rw [c3, b3, a3],
    by rw [c4, b4, a4], by rw [c5, b5, a5]⟩

theorem setFaces_pres (m : List Nat) :
    ∀ (faces : List FaceL) (g : GridSt) (r : GridSt × List FaceL),
      setFaces g m faces = .ok r →
      r.1.Nodes = g.Nodes ∧ r.1.Faces = g.Faces ∧ r.1.Zones = g.Zones ∧
      r.2.map FaceL.nodes_ids = faces.map FaceL.nodes_ids := by
  intro faces
  induction faces with
  | nil =>
    intro g r h
    simp only [setFaces] at h
    injection h with h2
    subst h2
    simp
  | cons f rest ih =>
    intro g r h
    cases hp : processFace g m f with
    | error e => simp only [setFaces, hp] at h; exact Except.noConfusion h
    | ok gf =>
      cases hr : setFaces gf.1 m rest with
      | error es => simp only [setFaces, hp, hr] at h; exact Except.noConfusion h
      | ok gfs =>
        simp only [setFaces, hp, hr] at h
        injection h with h2
        subst h2
        obtain ⟨p1, p2, p3, p4, _⟩ := processFace_pres hp
        obtain ⟨i1, i2, i3, i4⟩ := ih gf.1 gfs hr
        exact ⟨by rw [i1, p1], by rw [i2, p2], by rw [i3, p3], by simp [i4, p4]⟩

theorem setFaces_err_st (m : List Nat) :
    ∀ (faces : List FaceL) (g : GridSt) (es : PyExc × GridSt),
      setFaces g m faces = .error es →
      es.2.Nodes = g.Nodes ∧ es.2.Zones = g.Zones := by
  intro faces
  induction faces with
  | nil => intro g es h; simp [setFaces] at h
  | cons f rest ih =>
    intro g es h
    cases hp : processFace g m f with
    | error e =>
      simp only [setFaces, hp] at h
      injection h with h2
      subst h2
      exact ⟨rfl, rfl⟩
    | ok gf =>
      cases hr : setFaces gf.1 m rest with
      | error es2 =>
        simp only [setFaces, hp, hr] at h
        injection h with h2
        subst h2
        obtain ⟨p1, _, p3, _, _⟩ := processFace_pres hp
        obtain ⟨i1, i2⟩ := ih gf.1 _ hr
        exact ⟨by rw [i1, p1], by rw [i2, p3]⟩
      | ok gfs => simp only [setFaces, hp, hr] at h; exact Except.noConfusion h

theorem facesPhase_err_st :
    ∀ (jobs : List (List Nat × List FaceL)) (g : GridSt) (es : PyExc × GridSt),
      facesPhase g jobs = .error es →
      es.2.Nodes = g.Nodes ∧ es.2.Zones = g.Zones := by
  intro jobs
  induction jobs with
  | nil => intro g es h; simp [facesPhase] at h
  | cons job rest ih =>
    intro g es h
    cases hs : setFaces g job.1 job.2 with
    | error es2 =>
      simp only [facesPhase, hs] at h
      injection h with h2
      subst h2
      exact setFaces_err_st job.1 job.2 g _ hs
    | ok gfs =>
      cases hr : facesPhase { gfs.1 with Faces := gfs.1.Faces ++ gfs.2 } rest with
      | error es2 =>
        simp only [facesPhase, hs, hr] at h
        injection h with h2
        subst h2
        obtain ⟨s1, _, s3, _⟩ := setFaces_pres job.1 job.2 g gfs hs
        obtain ⟨i1, i2⟩ := ih _ _ hr
        exact ⟨by rw [i1]; exact s1, by rw [i2]; exact s3⟩
      | ok gps => simp only [facesPhase, hs, hr] at h; exact Except.noConfusion h

theorem facesPhase_bad :
    ∀ (jobs : List (List Nat × List FaceL)) (g : GridSt)
      (jb : List Nat × List FaceL), jb ∈ jobs →
      (∃ f ∈ jb.2, BadFace jb.1.length f) →
      ∃ es : PyExc × GridSt, facesPhase g jobs = .error es ∧
        es.1 = PyExc.indexError := by
  intro jobs
  induction jobs with
  | nil => intro g jb hjb _; simp at hjb
  | cons job rest ih =>
    intro g jb hjb hbad
    rcases List.mem_cons.mp hjb with rfl | hjb'
    · obtain ⟨f, hf, hb⟩ := hbad
      obtain ⟨st, hst⟩ := setFaces_bad jb.1 jb.2 g f hf hb
      exact ⟨(.indexError, st), by simp [facesPhase, hst], rfl⟩
    · cases hs : setFaces g job.1 job.2 with
      | error es2 =>
        exact ⟨es2, by simp [facesPhase, hs],
          setFaces_err_kind job.1 job.2 g es2 hs⟩
      | ok gfs =>
        obtain ⟨es, hes, hk⟩ :=
          ih { gfs.1 with Faces := gfs.1.Faces ++ gfs.2 } jb hjb' hbad
        exact ⟨es, by simp [facesPhase, hs, hes], hk⟩

theorem facesPhase_ok_struct :
    ∀ (jobs : List (List Nat × List FaceL)) (g : GridSt)
      (r : GridSt × List (List FaceL)), facesPhase g jobs = .ok r →
      r.1.Nodes = g.Nodes ∧ r.1.Zones = g.Zones ∧
      r.1.Faces = g.Faces ++ r.2.flatten ∧ r.2.length = jobs.length ∧
      r.2.map (fun l => l.map FaceL.nodes_ids) =
        jobs.map (fun jb => jb.2.map FaceL.nodes_ids) := by
  intro jobs
  induction jobs with
  | nil =>
    intro g r h
    simp only [facesPhase] at h
    injection h with h2
    subst h2
    simp
  | cons job rest ih =>
    intro g r h
    cases hs : setFaces g job.1 job.2 with
    | error es => simp only [facesPhase, hs] at h; exact Except.noConfusion h
    | ok gfs =>
      cases hr : facesPhase { gfs.1 with Faces := gfs.1.Faces ++ gfs.2 } rest with
      | error es => simp only [facesPhase, hs, hr] at h; exact Except.noConfusion h
      | ok gps =>
        simp only [facesPhase, hs, hr] at h
        injection h with h2
        subst h2
        obtain ⟨s1, s2, s3, s4⟩ := setFaces_pres job.1 job.2 g gfs hs
        obtain ⟨i1, i2, i3, i4, i5⟩ := ih _ gps hr
        refine ⟨by rw [i1]; exact s1, by rw [i2]; exact s3, ?_, by simp [i4], ?_⟩
        · show gps.1.Faces = g.Faces ++ (gfs.2 :: gps.2).flatten
          rw [i3]
          show gfs.1.Faces ++ gfs.2 ++ gps.2.flatten = g.Faces ++ (gfs.2 ++ gps.2.flatten)
          rw [s2, List.append_assoc]
        · show (gfs.2 :: gps.2).map (fun l => l.map FaceL.nodes_ids) =
            (job :: rest).map (fun jb => jb.2.map FaceL.nodes_ids)
          simp only [List.map_cons]
          exact congrArg₂ (· :: ·) s4 i5

theorem nSquareStep_pres (g : GridSt) (c : Node) :
    (nSquareStep g c).1.Edges = g.Edges ∧ (nSquareStep g c).1.Faces = g.Faces ∧
    (nSquareStep g c).1.Zones = g.Zones := by
  cases h : findEq c g.Nodes <;> simp [nSquareStep, h]

theorem dichotomy1Step_pres (g : GridSt) (c : Node) :
    (dichotomy1Step g c).1.Edges = g.Edges ∧ (dichotomy1Step g c).1.Faces = g.Faces ∧
    (dichotomy1Step g c).1.Zones = g.Zones := by
  cases h : d1Find g c <;> simp [dichotomy1Step, insertSorted, h]

theorem dichotomy2Step_pres (g : GridSt) (c : Node) :
    (dichotomy2Step g c).1.Edges = g.Edges ∧ (dichotomy2Step g c).1.Faces = g.Faces ∧
    (dichotomy2Step g c).1.Zones = g.Zones := by
  cases h : d2Find g c <;> simp [dichotomy2Step, insertSorted, h]

theorem insertZone_pres (s : GridSt → Node → GridSt × Nat)
    (hs : ∀ g c, (s g c).1.Edges = g.Edges ∧ (s g c).1.Faces = g.Faces ∧
      (s g c).1.Zones = g.Zones) :
    ∀ (ns : List Node) (g : GridSt),
      (insertZone s g ns).1.Edges = g.Edges ∧
      (insertZone s g ns).1.Faces = g.Faces ∧
      (insertZone s g ns).1.Zones = g.Zones := by
  intro ns
  induction ns with
  | nil => intro g; exact ⟨rfl, rfl, rfl⟩
  | cons c rest ih =>
    intro g
    obtain ⟨h1, h2, h3⟩ := hs g c
    obtain ⟨i1, i2, i3⟩ := ih (s g c).1
    exact ⟨by rw [show (insertZone s g (c :: rest)).1 = (insertZone s (s g c).1 rest).1 from rfl, i1, h1],
      by rw [show (insertZone s g (c :: rest)).1 = (insertZone s (s g c).1 rest).1 from rfl, i2, h2],
      by rw [show (insertZone s g (c :: rest)).1 = (insertZone s (s g c).1 rest).1 from rfl, i3, h3]⟩

theorem insertZone_len (s : GridSt → Node → GridSt × Nat) :
    ∀ (ns : List Node) (g : GridSt), (insertZone s g ns).2.length = ns.length := by
  intro ns
  induction ns with
  | nil => intro g; rfl
  | cons c rest ih =>
    intro g
    show ((s g c).2 :: (insertZone s (s g c).1 rest).2).length = rest.length + 1
    simp [ih]

theorem setNodesZone_pres (alg : String) (g : GridSt) (ns : List Node) :
    (setNodesZone alg g ns).1.Edges = g.Edges ∧
    (setNodesZone alg g ns).1.Faces = g.Faces ∧
    (setNodesZone alg g ns).1.Zones = g.Zones := by
  unfold setNodesZone
  split_ifs
  · exact insertZone_pres nSquareStep nSquareStep_pres ns g
  · exact insertZone_pres dichotomy1Step dichotomy1Step_pres ns g
  · exact insertZone_pres dichotomy2Step dichotomy2Step_pres ns g
  · exact ⟨rfl, rfl, rfl⟩

theorem setNodesZone_len (alg : String) (g : GridSt) (ns : List Node) :
    (setNodesZone alg g ns).2.length = ns.length := by
  unfold setNodesZone
  split_ifs
  · exact insertZone_len nSquareStep ns g
  · exact insertZone_len dichotomy1Step ns g
  · exact insertZone_len dichotomy2Step ns g
  · simp

theorem setNodes_pres (alg : String) :
    ∀ (zoness : List (List Node)) (g : GridSt),
      (setNodes alg g zoness).1.Edges = g.Edges ∧
      (setNodes alg g zoness).1.Faces = g.Faces ∧
      (setNodes alg g zoness).1.Zones = g.Zones := by
  intro zoness
  induction zoness with
  | nil => intro g; exact ⟨rfl, rfl, rfl⟩
  | cons ns rest ih =>
    intro g
    obtain ⟨h1, h2, h3⟩ := setNodesZone_pres alg g ns
    obtain ⟨i1, i2, i3⟩ := ih (setNodesZone alg g ns).1
    exact ⟨by rw [show (setNodes alg g (ns :: rest)).1 =
        (setNodes alg (setNodesZone alg g ns).1 rest).1 from rfl, i1, h1],
      by rw [show (setNodes alg g (ns :: rest)).1 =
        (setNodes alg (setNodesZone alg g ns).1 rest).1 from rfl, i2, h2],
      by rw [show (setNodes alg g (ns :: rest)).1 =
        (setNodes alg (setNodesZone alg g ns).1 rest).1 from rfl, i3, h3]⟩

theorem setNodes_len (alg : String) :
    ∀ (zoness : List (List Node)) (g : GridSt),
      (setNodes alg g zoness).2.length = zoness.length := by
  intro zoness
  induction zoness with
  | nil => intro g; rfl
  | cons ns rest ih =>
    intro g
    show ((setNodesZone alg g ns).2 ::
      (setNodes alg (setNodesZone alg g ns).1 rest).2).length = rest.length + 1
    simp [ih]

theorem setNodes_get_len (alg : String) :
    ∀ (zoness : List (List Node)) (g : GridSt) (t : Nat),
      ((setNodes alg g zoness).2.get? t).map List.length =
        (zoness.get? t).map List.length := by
  intro zoness
  induction zoness with
  | nil => intro g t; rfl
  | cons ns rest ih =>
    intro g t
    cases t with
    | zero =>
      show some (setNodesZone alg g ns).2.length = some ns.length
      rw [setNodesZone_len]
    | succ t' =>
      show ((setNodes alg (setNodesZone alg g ns).1 rest).2.get? t').map List.length =
        (rest.get? t').map List.length
      exact ih _ t'

theorem parsePhase_length : ∀ (zs : List ZoneInput) (k : Nat),
    (parsePhase k zs).length = zs.length := by
  intro zs
  induction zs with
  | nil => intro k; rfl
  | cons z rest ih =>
    intro k
    show (parsePhase (k + (parceNodesAndFaces k z).2.length) rest).length + 1 =
      rest.length + 1
    rw [ih]

theorem mkFaces_map_ids : ∀ (k : Nat) (idss : List (List Int)),
    (mkFaces k idss).map FaceL.nodes_ids = idss := by
  intro k idss
  induction idss generalizing k with
  | nil => rfl
  | cons ids rest ih => simp [mkFaces, ih]

theorem mkFaces_clean : ∀ (k : Nat) (idss : List (List Int)) (f : FaceL),
    f ∈ mkFaces k idss → f.nodes = [] ∧ f.edges = [] := by
  intro k idss
  induction idss generalizing k with
  | nil => intro f hf; simp [mkFaces] at hf
  | cons ids rest ih =>
    intro f hf
    rcases List.mem_cons.mp hf with rfl | hf'
    · exact ⟨rfl, rfl⟩
    · exact ih (k + 1) f hf'

theorem parsePhase_get : ∀ (zs : List ZoneInput) (k t : Nat) (zi : ZoneInput),
    zs.get? t = some zi →
    ∃ fid, (parsePhase k zs).get? t = some (parceNodesAndFaces fid zi) := by
  intro zs
  induction zs with
  | nil => intro k t zi h; simp at h
  | cons z rest ih =>
    intro k t zi h
    cases t with
    | zero =>
      simp only [List.get?] at h
      injection h with h2
      subst h2
      exact ⟨k, rfl⟩
    | succ t' =>
      simp only [List.get?] at h
      exact ih (k + (parceNodesAndFaces k z).2.length) t' zi h

theorem parsePhase_map_faceIds : ∀ (zs : List ZoneInput) (k : Nat),
    (parsePhase k zs).map (fun p => p.2.map FaceL.nodes_ids) =
      zs.map ZoneInput.faceIds := by
  intro zs
  induction zs with
  | nil => intro k; rfl
  | cons z rest ih =>
    intro k
    show (parceNodesAndFaces k z).2.map FaceL.nodes_ids ::
        (parsePhase (k + (parceNodesAndFaces k z).2.length) rest).map
          (fun p => p.2.map FaceL.nodes_ids) =
      z.faceIds :: rest.map ZoneInput.faceIds
    exact congrArg₂ (· :: ·) (mkFaces_map_ids k z.faceIds) (ih _)

theorem parsePhase_clean : ∀ (zs : List ZoneInput) (k : Nat)
    (pr : List Node × List FaceL), pr ∈ parsePhase k zs →
    ∀ f ∈ pr.2, f.nodes = [] ∧ f.edges = [] := by
  intro zs
  induction zs with
  | nil => intro k pr hpr; simp [parsePhase] at hpr
  | cons z rest ih =>
    intro k pr hpr
    rcases List.mem_cons.mp hpr with rfl | hpr'
    · intro f hf; exact mkFaces_clean k z.faceIds f hf
    · exact ih _ pr hpr'

theorem zip_get? {α β : Type _} : ∀ (l1 : List α) (l2 : List β) (t : Nat)
    (a : α) (b : β), l1.get? t = some a → l2.get? t = some b →
    (l1.zip l2).get? t = some (a, b) := by
  intro l1
  induction l1 with
  | nil => intro l2 t a b h1 _; simp at h1
  | cons x t1 ih =>
    intro l2 t a b h1 h2
    cases l2 with
    | nil => simp at h2
    | cons y t2 =>
      cases t with
      | zero =>
        simp only [List.get?] at h1 h2
        injection h1 with h1
        injection h2 with h2
        subst h1; subst h2
        rfl
      | succ t' =>
        simp only [List.zip_cons_cons, List.get?] at h1 h2 ⊢
        exact ih t2 t' a b h1 h2

theorem zip_map_snd {α β γ : Type _} : ∀ (l1 : List α) (l2 : List β),
    l1.length = l2.length → ∀ (f : β → γ),
    (l1.zip l2).map (fun p => f p.2) = l2.map f := by
  intro l1
  induction l1 with
  | nil =>
    intro l2 h f
    cases l2 with
    | nil => rfl
    | cons y t2 => simp at h
  | cons x t1 ih =>
    intro l2 h f
    cases l2 with
    | nil => simp at h
    | cons y t2 =>
      simp only [List.zip_cons_cons, List.map_cons]
      rw [ih t2 (by simpa using h) f]

/-- C4 counterexample: on the zone whose second face references node 4 of
3, the merge raises `IndexError`, but the grid at the moment of the raise
already holds the zone's 3 canonical nodes, the 3 edges of the first face
and the zone object — it is not the empty pre-call state. -/
theorem bad_face_leaves_partial_state :
    (errGrid (readTecplot g0 [zoneBad] "n_square")).map
      (fun st => (st.Nodes.length, st.Edges.length, st.Zones.length)) =
      some (3, 3, 1) ∧
    (g0.Nodes.length, g0.Edges.length, g0.Zones.length) = (0, 0, 0) := by
  exact ⟨by decide, rfl⟩

theorem parsedOf_length (g : GridSt) (zs : List ZoneInput) :
    (parsedOf g zs).length = zs.length :=
  parsePhase_length zs g.Faces.length

/-- C4 (amended): a face record with fewer than three indices, or with an
index resolving out of range even under Python's negative indexing, makes
the merge abort synchronously with `IndexError` — but the Mesh Graph is not
left in its pre-call state: at the moment of the raise every zone of the
file has already been appended and the whole node pass has been committed
(`grid.Nodes` holds exactly the `set_nodes` result). -/
theorem readTecplot_bad_face_aborts (zs : List ZoneInput) (alg : String)
    (zi : ZoneInput) (ids : List Int) (halg : alg ∈ algNames) (hzi : zi ∈ zs)
    (hids : ids ∈ zi.faceIds)
    (hbad : ids.length < 3 ∨ ∃ v ∈ ids.take 3,
      (((min zi.xs.length zi.ys.length : Nat) : Int) < v ∨
        v ≤ -((min zi.xs.length zi.ys.length : Nat) : Int))) :
    errKind (readTecplot g0 zs alg) = some PyExc.indexError ∧
    (errGrid (readTecplot g0 zs alg)).map (fun st => st.Zones.length) =
      some zs.length ∧
    (errGrid (readTecplot g0 zs alg)).map GridSt.Nodes =
      some (gmOf g0 zs alg).1.Nodes := by
  obtain ⟨t, ht⟩ := List.mem_iff_get?.mp hzi
  obtain ⟨fid, hpt⟩ := parsePhase_get zs g0.Faces.length t zi ht
  have hp1 : ((parsedOf g0 zs).map (·.1)).get? t =
      some (parceNodesAndFaces fid zi).1 := by
    rw [List.get?_map]
    show ((parsePhase g0.Faces.length zs).get? t).map (·.1) = _
    rw [hpt]
    rfl
  have hmt := setNodes_get_len alg ((parsedOf g0 zs).map (·.1)) g0 t
  rw [hp1] at hmt
  cases hmget : (gmOf g0 zs alg).2.get? t with
  | none =>
    have hmget' : (setNodes alg g0 ((parsedOf g0 zs).map (·.1))).2.get? t =
      none := hmget
    rw [hmget'] at hmt
    simp at hmt
  | some m =>
    have hmget' : (setNodes alg g0 ((parsedOf g0 zs).map (·.1))).2.get? t =
      some m := hmget
    rw [hmget'] at hmt
    simp only [Option.map_some'] at hmt
    injection hmt with hml
    have hml' : m.length = min zi.xs.length zi.ys.length := by
      rw [hml]
      exact zipWith_node_length zi.xs zi.ys
    have hp2 : ((parsedOf g0 zs).map (·.2)).get? t =
        some (mkFaces fid zi.faceIds) := by
      rw [List.get?_map]
      show ((parsePhase g0.Faces.length zs).get? t).map (·.2) = _
      rw [hpt]
      rfl
    have hjob : (jobsOf g0 zs alg).get? t = some (m, mkFaces fid zi.faceIds) :=
      zip_get? _ _ t _ _ hmget hp2
    have hjmem : (m, mkFaces fid zi.faceIds) ∈ jobsOf g0 zs alg :=
      List.get?_mem hjob
    have hidm : ids ∈ (mkFaces fid zi.faceIds).map FaceL.nodes_ids := by
      rw [mkFaces_map_ids]
      exact hids
    obtain ⟨f, hfmem, hfeq⟩ := List.mem_map.mp hidm
    have hbf : BadFace m.length f := by
      unfold BadFace
      rw [hfeq, hml']
      exact hbad
    obtain ⟨es, hes, hkind⟩ := facesPhase_bad (jobsOf g0 zs alg)
      (gridPre g0 zs alg) (m, mkFaces fid zi.faceIds) hjmem ⟨f, hfmem, hbf⟩
    have hrt : readTecplot g0 zs alg = .error es := by
      simp only [readTecplot, if_pos halg, hes]
    obtain ⟨hN, hZ⟩ := facesPhase_err_st _ _ _ hes
    refine ⟨?_, ?_, ?_⟩
    · rw [hrt]
      show some es.1 = some PyExc.indexError
      rw [hkind]
    · rw [hrt]
      show some es.2.Zones.length = some zs.length
      rw [hZ]
      show some (g0.Zones ++
        zonesOf (gmOf g0 zs alg).2 ((parsedOf g0 zs).map (·.2))).length = _
      have hmlen : (gmOf g0 zs alg).2.length = zs.length := by
        show (setNodes alg g0 ((parsedOf g0 zs).map (·.1))).2.length = zs.length
        rw [setNodes_len, List.length_map]
        exact parsePhase_length zs _
      have hplen : ((parsedOf g0 zs).map (·.2)).length = zs.length := by
        rw [List.length_map]
        exact parsePhase_length zs _
      simp [zonesOf, List.length_zip, hmlen, hplen]
      rfl
    · rw [hrt]
      show some es.2.Nodes = some (gmOf g0 zs alg).1.Nodes
      rw [hN]
      rfl

/-- Witness for `readTecplot_bad_face_aborts` on the `zoneBad` input. -/
theorem readTecplot_bad_face_aborts_witness :
    errKind (readTecplot g0 [zoneBad] "n_square") = some PyExc.indexError ∧
    (errGrid (readTecplot g0 [zoneBad] "n_square")).map
      (fun st => st.Zones.length) = some [zoneBad].length ∧
    (errGrid (readTecplot g0 [zoneBad] "n_square")).map GridSt.Nodes =
      some (gmOf g0 [zoneBad] "n_square").1.Nodes :=
  readTecplot_bad_face_aborts [zoneBad] "n_square" zoneBad [1, 2, 4]
    (by decide) (by decide) (by decide) (by decide)

/-- C9: when `read_tecplot` completes on an initially empty grid, the
global face sequence is the concatenation, in zone order, of the zones'
face lists, and each zone's face list carries exactly its parsed
connectivity records in input order. -/
theorem readTecplot_faces_concat (zs : List ZoneInput) (alg : String)
    (g' : GridSt) (h : readTecplot g0 zs alg = .ok g') :
    g'.Faces = (g'.Zones.map ZoneSt.Faces).flatten ∧
    g'.Zones.map (fun z => z.Faces.map FaceL.nodes_ids) =
      zs.map ZoneInput.faceIds := by
  by_cases halg : alg ∈ algNames
  · simp only [readTecplot, if_pos halg] at h
    rcases hfp : facesPhase (gridPre g0 zs alg) (jobsOf g0 zs alg) with es | gps
    · rw [hfp] at h
      exact Except.noConfusion h
    · rw [hfp] at h
      injection h with h2
      subst h2
      obtain ⟨_, _, hfaces, hlen, hids⟩ := facesPhase_ok_struct _ _ _ hfp
      have hmlen : (gmOf g0 zs alg).2.length = zs.length := by
        show (setNodes alg g0 ((parsedOf g0 zs).map (·.1))).2.length = zs.length
        rw [setNodes_len, List.length_map]
        exact parsePhase_length zs _
      have hjlen : (jobsOf g0 zs alg).length = zs.length := by
        show ((gmOf g0 zs alg).2.zip ((parsedOf g0 zs).map (·.2))).length = _
        rw [List.length_zip, hmlen, List.length_map, parsedOf_length]
        exact Nat.min_self _
      have hplen : gps.2.length = zs.length := by rw [hlen, hjlen]
      have hzones : (g0.Zones ++ zonesOf (gmOf g0 zs alg).2 gps.2).map
          ZoneSt.Faces = gps.2 := by
        show (zonesOf (gmOf g0 zs alg).2 gps.2).map ZoneSt.Faces = gps.2
        unfold zonesOf
        rw [List.map_map]
        have := zip_map_snd (gmOf g0 zs alg).2 gps.2
          (by rw [hmlen, hplen]) (fun x : List FaceL => x)
        simpa using this
      constructor
      · show gps.1.Faces = ((g0.Zones ++ zonesOf (gmOf g0 zs alg).2 gps.2).map
          ZoneSt.Faces).flatten
        rw [hzones, hfaces]
        show (gridPre g0 zs alg).Faces ++ gps.2.flatten = gps.2.flatten
        have : (gridPre g0 zs alg).Faces = g0.Faces := by
          show (gmOf g0 zs alg).1.Faces = g0.Faces
          exact (setNodes_pres alg _ g0).2.1
        rw [this]
        rfl
      · show (g0.Zones ++ zonesOf (gmOf g0 zs alg).2 gps.2).map
          (fun z => z.Faces.map FaceL.nodes_ids) = zs.map ZoneInput.faceIds
        have : (g0.Zones ++ zonesOf (gmOf g0 zs alg).2 gps.2).map
            (fun z => z.Faces.map FaceL.nodes_ids) =
            ((g0.Zones ++ zonesOf (gmOf g0 zs alg).2 gps.2).map
              ZoneSt.Faces).map (fun l => l.map FaceL.nodes_ids) := by
          rw [List.map_map]
          rfl
        rw [this, hzones, hids]
        have hz2 := zip_map_snd (gmOf g0 zs alg).2 ((parsedOf g0 zs).map (·.2))
          (by rw [hmlen, List.length_map, parsedOf_length])
          (fun pf : List FaceL => pf.map FaceL.nodes_ids)
        show ((gmOf g0 zs alg).2.zip ((parsedOf g0 zs).map (·.2))).map
          (fun jb => jb.2.map FaceL.nodes_ids) = zs.map ZoneInput.faceIds
        rw [hz2, List.map_map]
        exact parsePhase_map_faceIds zs _
  · simp [readTecplot, halg] at h

/-- Witness for `readTecplot_faces_concat` on the merge of zone A alone. -/
theorem readTecplot_faces_concat_witness :
    gA.Faces = (gA.Zones.map ZoneSt.Faces).flatten ∧
    gA.Zones.map (fun z => z.Faces.map FaceL.nodes_ids) =
      [zoneA].map ZoneInput.faceIds :=
  readTecplot_faces_concat [zoneA] "n_square" gA rfl

/-! ### Strategy equivalence (C2)

Each strategy's search is sound: it only ever returns a reference to a
stored node exactly equal to the candidate.  Hence, on a duplicate-free
zone against an empty store, every resolution is a miss and every strategy
appends exactly the input nodes. -/

theorem node_ext {n c : Node} (hx : n.x = c.x) (hy : n.y = c.y) : n = c := by
  cases n
  cases c
  simp only at hx hy
  rw [hx, hy]

theorem findEq_sound {c : Node} : ∀ (l : List Node) (j : Nat),
    findEq c l = some j → c ∈ l := by
  intro l
  induction l with
  | nil => intro j h; simp [findEq] at h
  | cons n rest ih =>
    intro j h
    by_cases he : n = c
    · rw [he]; exact List.mem_cons_self _ _
    · rw [findEq, if_neg he] at h
      cases hr : findEq c rest with
      | none => rw [hr] at h; simp at h
      | some j' => exact List.mem_cons_of_mem _ (ih j' hr)

theorem scanRun_sound {g : GridSt} {c : Node} : ∀ (l : List Nat) (i : Nat),
    scanRun g c l = some i → c ∈ g.Nodes := by
  intro l
  induction l with
  | nil => intro i h; simp [scanRun] at h
  | cons i' rest ih =>
    intro i h
    rw [scanRun] at h
    cases hn : g.Nodes.get? i' with
    | none => rw [hn] at h; simp at h
    | some n =>
      rw [hn] at h
      have h' : (if n.x = c.x then
          if n.y = c.y then some i' else scanRun g c rest
        else none) = some i := h
      by_cases hx : n.x = c.x
      · rw [if_pos hx] at h'
        by_cases hy : n.y = c.y
        · rw [node_ext hx hy] at hn
          exact List.get?_mem hn
        · rw [if_neg hy] at h'
          exact ih i h'
      · rw [if_neg hx] at h'
        simp at h'


theorem nSquareStep_sound : StepSound nSquareStep := by
  intro g c hc
  cases hf : findEq c g.Nodes with
  | none => simp [nSquareStep, hf]
  | some j => exact absurd (findEq_sound g.Nodes j hf) hc

theorem dichotomy1Step_sound : StepSound dichotomy1Step := by
  intro g c hc
  cases hf : d1Find g c with
  | none => simp [dichotomy1Step, insertSorted, hf]
  | some j => exact absurd (scanRun_sound _ j hf) hc

theorem dichotomy2Step_sound : StepSound dichotomy2Step := by
  intro g c hc
  cases hf : d2Find g c with
  | none => simp [dichotomy2Step, insertSorted, hf]
  | some j =>
    unfold d2Find at hf
    cases h1 : scanRun g c (g.SortedIdx.drop (lowerBound g c.x)) with
    | some i => exact absurd (scanRun_sound _ i h1) hc
    | none =>
      rw [h1] at hf
      exact absurd (scanRun_sound _ j hf) hc

theorem insertZone_nodes (s : GridSt → Node → GridSt × Nat)
    (hs : StepSound s) :
    ∀ (ns : List Node) (g : GridSt), ns.Nodup → (∀ c ∈ ns, c ∉ g.Nodes) →
      ((insertZone s g ns).1).Nodes = g.Nodes ++ ns := by
  intro ns
  induction ns with
  | nil => intro g _ _; exact (List.append_nil g.Nodes).symm
  | cons c rest ih =>
    intro g hnd hout
    have hc : c ∉ g.Nodes := hout c (List.mem_cons_self _ _)
    have h1 : (s g c).1.Nodes = g.Nodes ++ [c] := hs g c hc
    obtain ⟨hcr, hndr⟩ := List.nodup_cons.mp hnd
    have hout' : ∀ c' ∈ rest, c' ∉ (s g c).1.Nodes := by
      intro c' hc' hmem
      rw [h1] at hmem
      rcases List.mem_append.mp hmem with h | h
      · exact hout c' (List.mem_cons_of_mem _ hc') h
      · rw [List.mem_singleton.mp h] at hc'
        exact hcr hc'
    have := ih (s g c).1 hndr hout'
    show (insertZone s (s g c).1 rest).1.Nodes = g.Nodes ++ c :: rest
    rw [this, h1, List.append_assoc, List.singleton_append]

/-- C2: on a zone node list free of exact duplicates, merging into an empty
canonical store under each of the three strategies yields canonical node
collections equal as sets of (x, y) pairs (indeed, identical lists). -/
theorem strategy_equivalence (ns : List Node) (h : ns.Nodup) :
    (setNodes "n_square" g0 [ns]).1.Nodes.toFinset =
      (setNodes "dichotomy_1_sided" g0 [ns]).1.Nodes.toFinset ∧
    (setNodes "dichotomy_1_sided" g0 [ns]).1.Nodes.toFinset =
      (setNodes "dichotomy_2_sided" g0 [ns]).1.Nodes.toFinset := by
  have hout : ∀ c ∈ ns, c ∉ g0.Nodes := by intro c _ hc; simp [g0] at hc
  have e1 : (setNodes "n_square" g0 [ns]).1.Nodes = ns := by
    show (setNodesZone "n_square" g0 ns).1.Nodes = ns
    unfold setNodesZone
    rw [if_pos rfl]
    exact insertZone_nodes nSquareStep nSquareStep_sound ns g0 h hout
  have e2 : (setNodes "dichotomy_1_sided" g0 [ns]).1.Nodes = ns := by
    show (setNodesZone "dichotomy_1_sided" g0 ns).1.Nodes = ns
    unfold setNodesZone
    rw [if_neg (by decide), if_pos rfl]
    exact insertZone_nodes dichotomy1Step dichotomy1Step_sound ns g0 h hout
  have e3 : (setNodes "dichotomy_2_sided" g0 [ns]).1.Nodes = ns := by
    show (setNodesZone "dichotomy_2_sided" g0 ns).1.Nodes = ns
    unfold setNodesZone
    rw [if_neg (by decide), if_neg (by decide), if_pos rfl]
    exact insertZone_nodes dichotomy2Step dichotomy2Step_sound ns g0 h hout
  rw [e1, e2, e3]
  exact ⟨rfl, rfl⟩

/-- Witness for `strategy_equivalence` on zone A's node list. -/
theorem strategy_equivalence_witness :
    ([Node.mk 0 0, Node.mk 1 0, Node.mk 0 1] : List Node).Nodup ∧
    ((setNodes "n_square" g0 [[Node.mk 0 0, Node.mk 1 0, Node.mk 0 1]]).1.Nodes.toFinset =
      (setNodes "dichotomy_1_sided" g0
        [[Node.mk 0 0, Node.mk 1 0, Node.mk 0 1]]).1.Nodes.toFinset ∧
     (setNodes "dichotomy_1_sided" g0
        [[Node.mk 0 0, Node.mk 1 0, Node.mk 0 1]]).1.Nodes.toFinset =
      (setNodes "dichotomy_2_sided" g0
        [[Node.mk 0 0, Node.mk 1 0, Node.mk 0 1]]).1.Nodes.toFinset) :=
  ⟨by decide, strategy_equivalence [Node.mk 0 0, Node.mk 1 0, Node.mk 0 1] (by decide)⟩

/-! ### Connectivity output (C8) -/



theorem idxOf_sound {x : Nat} : ∀ (l : List Nat) (i : Nat),
    idxOf x l = some i → l.getD i 0 = x := by
  intro l
  induction l with
  | nil => intro i h; simp [idxOf] at h
  | cons y rest ih =>
    intro i h
    by_cases he : y = x
    · rw [idxOf, if_pos he] at h
      injection h with h2
      subst h2
      exact he
    · rw [idxOf, if_neg he] at h
      cases hr : idxOf x rest with
      | none => rw [hr] at h; simp at h
      | some i' =>
        rw [hr] at h
        injection h with h2
        subst h2
        show rest.getD i' 0 = x
        exact ih i' hr

theorem idxOf_mem {x : Nat} : ∀ (l : List Nat), x ∈ l →
    ∃ i, idxOf x l = some i := by
  intro l
  induction l with
  | nil => intro h; simp at h
  | cons y rest ih =>
    intro h
    by_cases he : y = x
    · exact ⟨0, by rw [idxOf, if_pos he]⟩
    · rcases List.mem_cons.mp h with h' | h'
      · exact absurd h'.symm he
      · obtain ⟨i, hi⟩ := ih h'
        exact ⟨i + 1, by rw [idxOf, if_neg he, hi]; rfl⟩

theorem connLine_ok {nodes : List Nat} : ∀ (fns : List Nat),
    (∀ n ∈ fns, n ∈ nodes) →
    connLine nodes fns = some (mkConnLine nodes fns) := by
  intro fns
  induction fns with
  | nil => intro _; rfl
  | cons n rest ih =>
    intro h
    obtain ⟨i, hi⟩ := idxOf_mem nodes (h n (List.mem_cons_self _ _))
    have hrest := ih (fun n' hn' => h n' (List.mem_cons_of_mem _ hn'))
    rw [connLine, hi, hrest]
    show some (toString (i + 1) ++ " " ++ mkConnLine nodes rest) = _
    unfold mkConnLine posOf
    rw [List.map_cons, joinTokens, hi]
    rfl

/-- C8: given a node enumeration covering every linked node, the output
stage writes exactly one line per face, each line being, for the face's
nodes in stored order, the 1-based ordinal position of the node within the
enumeration (space-terminated tokens), and every written position is a
genuine position of that node in the enumeration. -/
theorem printConnectivityList_spec (nodes : List Nat) (faces : List FaceL)
    (h : ∀ f ∈ faces, ∀ n ∈ f.nodes, n ∈ nodes) :
    (printConnectivityList nodes faces).2 = none ∧
    (printConnectivityList nodes faces).1 =
      faces.map (fun f => mkConnLine nodes f.nodes) ∧
    (printConnectivityList nodes faces).1.length = faces.length ∧
    ∀ f ∈ faces, ∀ n ∈ f.nodes, nodes.getD (posOf nodes n) 0 = n := by
  induction faces with
  | nil => exact ⟨rfl, rfl, rfl, by intro f hf; simp at hf⟩
  | cons f rest ih =>
    have hline := connLine_ok f.nodes (h f (List.mem_cons_self _ _))
    obtain ⟨i1, i2, i3, i4⟩ := ih (fun f' hf' => h f' (List.mem_cons_of_mem _ hf'))
    refine ⟨?_, ?_, ?_, ?_⟩
    · show (printConnectivityList nodes (f :: rest)).2 = none
      rw [printConnectivityList, hline]
      exact i1
    · show (printConnectivityList nodes (f :: rest)).1 = _
      rw [printConnectivityList, hline, List.map_cons]
      show mkConnLine nodes f.nodes :: (printConnectivityList nodes rest).1 = _
      rw [i2]
    · rw [printConnectivityList, hline]
      show (printConnectivityList nodes rest).1.length + 1 = rest.length + 1
      rw [i3]
    · intro f' hf' n hn
      rcases List.mem_cons.mp hf' with rfl | hf''
      · obtain ⟨i, hi⟩ := idxOf_mem nodes (h f' (List.mem_cons_self _ _) n hn)
        unfold posOf
        rw [hi]
        exact idxOf_sound nodes i hi
      · exact i4 f' hf'' n hn

/-- Witness for `printConnectivityList_spec` on a 3-node enumeration. -/
theorem printConnectivityList_spec_witness :
    (∀ f ∈ [(⟨0, [], [3, 9, 7], []⟩ : FaceL)], ∀ n ∈ f.nodes, n ∈ [7, 3, 9]) ∧
    ((printConnectivityList [7, 3, 9] [⟨0, [], [3, 9, 7], []⟩]).2 = none ∧
     (printConnectivityList [7, 3, 9] [⟨0, [], [3, 9, 7], []⟩]).1 =
       [(⟨0, [], [3, 9, 7], []⟩ : FaceL)].map
         (fun f => mkConnLine [7, 3, 9] f.nodes) ∧
     (printConnectivityList [7, 3, 9] [⟨0, [], [3, 9, 7], []⟩]).1.length =
       [(⟨0, [], [3, 9, 7], []⟩ : FaceL)].length ∧
     ∀ f ∈ [(⟨0, [], [3, 9, 7], []⟩ : FaceL)], ∀ n ∈ f.nodes,
       List.getD [7, 3, 9] (posOf [7, 3, 9] n) 0 = n) :=
  ⟨by decide, printConnectivityList_spec [7, 3, 9]
    [⟨0, [], [3, 9, 7], []⟩] (by decide)⟩

/-! ### Edge uniqueness (C1): counting machinery -/






theorem edgeMatch_symm (a b : Nat) (e : EdgeL) :
    edgeMatch a b e = edgeMatch b a e := by
  unfold edgeMatch
  exact Bool.or_comm _ _

theorem edgeMatch_faces_irrel (a b : Nat) (e : EdgeL) (x : List Nat) :
    edgeMatch a b { e with faces := x } = edgeMatch a b e := rfl

theorem edgeMatch_self (a b : Nat) (fs : List Nat) :
    edgeMatch a b ⟨a, b, fs⟩ = true := by
  simp [edgeMatch]

theorem edgeMatch_pair {c d a b : Nat} {fs : List Nat}
    (h : edgeMatch c d ⟨a, b, fs⟩ = true) :
    (a = c ∧ b = d) ∨ (a = d ∧ b = c) := by
  simp [edgeMatch] at h
  exact h

theorem countMatch_append (a b : Nat) : ∀ (l l' : List EdgeL),
    countMatch a b (l ++ l') = countMatch a b l + countMatch a b l' := by
  intro l l'
  induction l with
  | nil => simp [countMatch]
  | cons e rest ih =>
    show (if edgeMatch a b e then 1 else 0) + countMatch a b (rest ++ l') = _
    rw [ih]
    show _ = (if edgeMatch a b e then 1 else 0) + countMatch a b rest + _
    omega

theorem countMatch_symm (a b : Nat) : ∀ (l : List EdgeL),
    countMatch a b l = countMatch b a l := by
  intro l
  induction l with
  | nil => rfl
  | cons e rest ih =>
    show (if edgeMatch a b e then 1 else 0) + countMatch a b rest =
      (if edgeMatch b a e then 1 else 0) + countMatch b a rest
    rw [edgeMatch_symm, ih]

theorem countMatch_congr {c d a b : Nat} {fs : List Nat}
    (h : edgeMatch c d ⟨a, b, fs⟩ = true) :
    ∀ (l : List EdgeL), countMatch c d l = countMatch a b l := by
  intro l
  rcases edgeMatch_pair h with ⟨h1, h2⟩ | ⟨h1, h2⟩
  · rw [h1, h2]
  · rw [h1, h2]
    exact countMatch_symm c d l

theorem countMatch_single (a b : Nat) (e : EdgeL) :
    countMatch a b [e] = if edgeMatch a b e then 1 else 0 := by
  show (if edgeMatch a b e then 1 else 0) + 0 = _
  omega

theorem isEdgePresent_none_count (a b : Nat) : ∀ (l : List EdgeL),
    isEdgePresent a b l = none → countMatch a b l = 0 := by
  intro l
  induction l with
  | nil => intro _; rfl
  | cons e rest ih =>
    intro h
    by_cases hm : edgeMatch a b e
    · rw [isEdgePresent, if_pos hm] at h
      simp at h
    · rw [isEdgePresent, if_neg hm] at h
      cases hr : isEdgePresent a b rest with
      | none =>
        show (if edgeMatch a b e then 1 else 0) + countMatch a b rest = 0
        rw [if_neg hm, ih hr]
      | some j => rw [hr] at h; simp at h

theorem isEdgePresent_some (a b : Nat) : ∀ (l : List EdgeL) (j : Nat),
    isEdgePresent a b l = some j →
    j < l.length ∧ edgeMatch a b (l.getD j dummyE) = true := by
  intro l
  induction l with
  | nil => intro j h; simp [isEdgePresent] at h
  | cons e rest ih =>
    intro j h
    by_cases hm : edgeMatch a b e
    · rw [isEdgePresent, if_pos hm] at h
      injection h with h2
      subst h2
      exact ⟨Nat.succ_pos _, hm⟩
    · rw [isEdgePresent, if_neg hm] at h
      cases hr : isEdgePresent a b rest with
      | none => rw [hr] at h; simp at h
      | some j' =>
        rw [hr] at h
        injection h with h2
        subst h2
        obtain ⟨hl, hm'⟩ := ih j' hr
        exact ⟨Nat.succ_lt_succ hl, hm'⟩

theorem countMatch_zero_nomatch (a b : Nat) : ∀ (l : List EdgeL),
    countMatch a b l = 0 → ∀ j, j < l.length →
    edgeMatch a b (l.getD j dummyE) = false := by
  intro l
  induction l with
  | nil => intro _ j hj; simp at hj
  | cons e rest ih =>
    intro h j hj
    have hsplit : (if edgeMatch a b e then 1 else 0) + countMatch a b rest = 0 := h
    by_cases hm : edgeMatch a b e
    · rw [if_pos hm] at hsplit; omega
    · rw [if_neg hm] at hsplit
      cases j with
      | zero => exact Bool.eq_false_iff.mpr hm
      | succ j' =>
        exact ih (by omega) j' (Nat.lt_of_succ_lt_succ hj)

theorem countMatch_pos_of_match (a b : Nat) : ∀ (l : List EdgeL) (j : Nat),
    j < l.length → edgeMatch a b (l.getD j dummyE) = true →
    1 ≤ countMatch a b l := by
  intro l
  induction l with
  | nil => intro j hj; simp at hj
  | cons e rest ih =>
    intro j hj hm
    show 1 ≤ (if edgeMatch a b e then 1 else 0) + countMatch a b rest
    cases j with
    | zero =>
      rw [show (e :: rest).getD 0 dummyE = e from rfl] at hm
      rw [if_pos hm]
      omega
    | succ j' =>
      have := ih j' (Nat.lt_of_succ_lt_succ hj) hm
      omega

theorem countMatch_two (a b : Nat) : ∀ (l : List EdgeL) (i j : Nat),
    i < l.length → j < l.length → i ≠ j →
    edgeMatch a b (l.getD i dummyE) = true →
    edgeMatch a b (l.getD j dummyE) = true →
    2 ≤ countMatch a b l := by
  intro l
  induction l with
  | nil => intro i j hi; simp at hi
  | cons e rest ih =>
    intro i j hi hj hne hmi hmj
    show 2 ≤ (if edgeMatch a b e then 1 else 0) + countMatch a b rest
    cases i with
    | zero =>
      cases j with
      | zero => exact absurd rfl hne
      | succ j' =>
        rw [show (e :: rest).getD 0 dummyE = e from rfl] at hmi
        rw [if_pos hmi]
        have := countMatch_pos_of_match a b rest j'
          (Nat.lt_of_succ_lt_succ hj) hmj
        omega
    | succ i' =>
      cases j with
      | zero =>
        rw [show (e :: rest).getD 0 dummyE = e from rfl] at hmj
        rw [if_pos hmj]
        have := countMatch_pos_of_match a b rest i'
          (Nat.lt_of_succ_lt_succ hi) hmi
        omega
      | succ j' =>
        have := ih i' j' (Nat.lt_of_succ_lt_succ hi)
          (Nat.lt_of_succ_lt_succ hj) (fun hc => hne (by rw [hc])) hmi hmj
        omega

theorem listModify_length {α : Type _} (h : α → α) : ∀ (l : List α) (k : Nat),
    (listModify h l k).length = l.length := by
  intro l
  induction l with
  | nil => intro k; rfl
  | cons x t ih =>
    intro k
    cases k with
    | zero => rfl
    | succ k' => show (listModify h t k').length + 1 = t.length + 1; rw [ih]

theorem listModify_getD_ne {α : Type _} (h : α → α) :
    ∀ (l : List α) (k j : Nat) (d : α), k ≠ j →
    (listModify h l k).getD j d = l.getD j d := by
  intro l
  induction l with
  | nil => intro k j d _; cases k <;> rfl
  | cons x t ih =>
    intro k j d hne
    cases k with
    | zero =>
      cases j with
      | zero => exact absurd rfl hne
      | succ j' => rfl
    | succ k' =>
      cases j with
      | zero => rfl
      | succ j' =>
        show (listModify h t k').getD j' d = t.getD j' d
        exact ih k' j' d (fun hc => hne (by rw [hc]))

theorem listModify_getD_eq {α : Type _} (h : α → α) :
    ∀ (l : List α) (k : Nat) (d : α), k < l.length →
    (listModify h l k).getD k d = h (l.getD k d) := by
  intro l
  induction l with
  | nil => intro k d hk; simp at hk
  | cons x t ih =>
    intro k d hk
    cases k with
    | zero => rfl
    | succ k' =>
      show (listModify h t k').getD k' d = h (t.getD k' d)
      exact ih k' d (Nat.lt_of_succ_lt_succ hk)

theorem countMatch_modifyFaces (a b : Nat) (x : Nat) :
    ∀ (l : List EdgeL) (k : Nat),
    countMatch a b (listModify (fun e => { e with faces := e.faces ++ [x] }) l k) =
      countMatch a b l := by
  intro l
  induction l with
  | nil => intro k; rfl
  | cons e rest ih =>
    intro k
    cases k with
    | zero =>
      show (if edgeMatch a b { e with faces := e.faces ++ [x] } then 1 else 0) +
        countMatch a b rest = _
      rw [edgeMatch_faces_irrel]
      rfl
    | succ k' =>
      show (if edgeMatch a b e then 1 else 0) +
        countMatch a b (listModify _ rest k') = _
      rw [ih k']
      rfl

theorem getD_append_lt {α : Type _} : ∀ (l l' : List α) (j : Nat) (d : α),
    j < l.length → (l ++ l').getD j d = l.getD j d := by
  intro l
  induction l with
  | nil => intro l' j d hj; simp at hj
  | cons x t ih =>
    intro l' j d hj
    cases j with
    | zero => rfl
    | succ j' => exact ih l' j' d (Nat.lt_of_succ_lt_succ hj)

theorem getD_append_len {α : Type _} : ∀ (l : List α) (x : α) (d : α),
    (l ++ [x]).getD l.length d = x := by
  intro l
  induction l with
  | nil => intro x d; rfl
  | cons y t ih => intro x d; exact ih x d

theorem PairLinked_mono {g : GridSt} {fid : Nat} {es es' : List Nat}
    {a b : Nat} (hsub : ∀ j, j ∈ es → j ∈ es')
    (h : PairLinked g fid es a b) : PairLinked g fid es' a b :=
  ⟨h.1, fun j hj hm => ⟨hsub j (h.2 j hj hm).1, (h.2 j hj hm).2⟩⟩

theorem PairLinked_symm {g : GridSt} {fid : Nat} {es : List Nat} {a b : Nat}
    (h : PairLinked g fid es a b) : PairLinked g fid es b a := by
  obtain ⟨h1, h2⟩ := h
  refine ⟨by rw [countMatch_symm]; exact h1, ?_⟩
  intro j hj hm
  rw [edgeMatch_symm] at hm
  exact h2 j hj hm

theorem FaceLinked_of_pres {g g' : GridSt} {f : FaceL} (hp : PLpres g g')
    (h : FaceLinked g f) : FaceLinked g' f :=
  fun a b ha hb hne => hp f.fid f.edges a b (h a b ha hb hne)

theorem edgeStep_spec (g : GridSt) (f : FaceL) (a b : Nat) (hU : UniqInv g) :
    UniqInv (edgeStep g f a b).1 ∧
    PLpres g (edgeStep g f a b).1 ∧
    PairLinked (edgeStep g f a b).1 (edgeStep g f a b).2.fid
      (edgeStep g f a b).2.edges a b ∧
    (∀ j, j ∈ f.edges → j ∈ (edgeStep g f a b).2.edges) := by
  cases he : isEdgePresent a b g.Edges with
  | none =>
    have hc0 : countMatch a b g.Edges = 0 :=
      isEdgePresent_none_count a b g.Edges he
    have hEdges : (edgeStep g f a b).1.Edges =
        g.Edges ++ [⟨a, b, [f.fid]⟩] := by
      simp [edgeStep, he]
    have hedges : (edgeStep g f a b).2.edges =
        f.edges ++ [g.Edges.length] := by
      simp [edgeStep, he]
    have hfid : (edgeStep g f a b).2.fid = f.fid := by
      simp [edgeStep, he]
    refine ⟨?_, ?_, ⟨?_, ?_⟩, ?_⟩
    · intro c d
      rw [hEdges, countMatch_append, countMatch_single]
      by_cases hm : edgeMatch c d ⟨a, b, [f.fid]⟩ = true
      · rw [if_pos hm, countMatch_congr hm, hc0]
      · rw [if_neg hm]
        have := hU c d
        omega
    · rintro fid es c d ⟨h1, h2⟩
      have hm : edgeMatch c d ⟨a, b, [f.fid]⟩ = false := by
        cases hb2 : edgeMatch c d ⟨a, b, [f.fid]⟩ with
        | false => rfl
        | true =>
          rw [countMatch_congr hb2, hc0] at h1
          exact absurd h1 (by decide)
      constructor
      · rw [hEdges, countMatch_append, countMatch_single, hm]
        simp [h1]
      · intro j hj hm2
        rw [hEdges] at hj hm2
        rw [hEdges]
        by_cases hlt : j < g.Edges.length
        · rw [getD_append_lt _ _ _ _ hlt] at hm2
          rw [getD_append_lt _ _ _ _ hlt]
          exact h2 j hlt hm2
        · have hj' : j = g.Edges.length := by
            rw [List.length_append] at hj
            simp at hj
            omega
          subst hj'
          rw [getD_append_len] at hm2
          rw [hm] at hm2
          simp at hm2
    · rw [hEdges, countMatch_append, countMatch_single, hc0, edgeMatch_self]
      rfl
    · intro j hj hm2
      rw [hEdges] at hj hm2
      by_cases hlt : j < g.Edges.length
      · rw [getD_append_lt _ _ _ _ hlt] at hm2
        have := countMatch_zero_nomatch a b g.Edges hc0 j hlt
        rw [this] at hm2
        simp at hm2
      · have hj' : j = g.Edges.length := by
          rw [List.length_append] at hj
          simp at hj
          omega
        subst hj'
        constructor
        · rw [hedges]
          exact List.mem_append_right _ (List.mem_singleton_self _)
        · rw [hEdges, getD_append_len, hfid]
          exact List.mem_singleton_self _
    · intro j hj
      rw [hedges]
      exact List.mem_append_left _ hj
  | some j0 =>
    obtain ⟨hj0, hm0⟩ := isEdgePresent_some a b g.Edges j0 he
    have hEdges : (edgeStep g f a b).1.Edges =
        listModify (fun e => { e with faces := e.faces ++ [f.fid] })
          g.Edges j0 := by
      simp [edgeStep, he]
    have hedges : (edgeStep g f a b).2.edges = f.edges ++ [j0] := by
      simp [edgeStep, he]
    have hfid : (edgeStep g f a b).2.fid = f.fid := by
      simp [edgeStep, he]
    have hlen : (edgeStep g f a b).1.Edges.length = g.Edges.length := by
      rw [hEdges, listModify_length]
    have hcnt : ∀ c d, countMatch c d (edgeStep g f a b).1.Edges =
        countMatch c d g.Edges := by
      intro c d
      rw [hEdges, countMatch_modifyFaces]
    have hgetne : ∀ j, j0 ≠ j →
        (edgeStep g f a b).1.Edges.getD j dummyE = g.Edges.getD j dummyE := by
      intro j hne
      rw [hEdges, listModify_getD_ne _ _ _ _ _ hne]
    have hgeteq : (edgeStep g f a b).1.Edges.getD j0 dummyE =
        { g.Edges.getD j0 dummyE with
          faces := (g.Edges.getD j0 dummyE).faces ++ [f.fid] } := by
      rw [hEdges, listModify_getD_eq _ _ _ _ hj0]
    refine ⟨?_, ?_, ⟨?_, ?_⟩, ?_⟩
    · intro c d
      rw [hcnt]
      exact hU c d
    · rintro fid es c d ⟨h1, h2⟩
      refine ⟨by rw [hcnt]; exact h1, ?_⟩
      intro j hj hm2
      rw [hlen] at hj
      by_cases hjeq : j0 = j
      · subst hjeq
        rw [hgeteq, edgeMatch_faces_irrel] at hm2
        obtain ⟨hja, hjb⟩ := h2 j0 hj hm2
        refine ⟨hja, ?_⟩
        rw [hgeteq]
        show fid ∈ (g.Edges.getD j0 dummyE).faces ++ [f.fid]
        exact List.mem_append_left _ hjb
      · rw [hgetne j hjeq] at hm2
        obtain ⟨hja, hjb⟩ := h2 j hj hm2
        refine ⟨hja, ?_⟩
        rw [hgetne j hjeq]
        exact hjb
    · rw [hcnt]
      exact Nat.le_antisymm (hU a b)
        (countMatch_pos_of_match a b g.Edges j0 hj0 hm0)
    · intro j hj hm2
      rw [hlen] at hj
      have hmj : edgeMatch a b (g.Edges.getD j dummyE) = true := by
        by_cases hjeq : j0 = j
        · subst hjeq
          exact hm0
        · rw [hgetne j hjeq] at hm2
          exact hm2
      have hjj0 : j = j0 := by
        by_contra hne
        have h2c := countMatch_two a b g.Edges j j0 hj hj0 hne hmj hm0
        have := hU a b
        omega
      subst hjj0
      constructor
      · rw [hedges]
        exact List.mem_append_right _ (List.mem_singleton_self _)
      · rw [hfid, hgeteq]
        show f.fid ∈ (g.Edges.getD j dummyE).faces ++ [f.fid]
        exact List.mem_append_right _ (List.mem_singleton_self _)
    · intro j hj
      rw [hedges]
      exact List.mem_append_left _ hj

theorem processFace_spec {g : GridSt} {m : List Nat} {f : FaceL}
    {r : GridSt × FaceL} (hU : UniqInv g) (h : processFace g m f = .ok r) :
    UniqInv r.1 ∧ PLpres g r.1 ∧ (f.nodes = [] → FaceLinked r.1 r.2) := by
  rcases h0 : resolve m f.nodes_ids 0 with _ | n1 <;>
    rcases h1 : resolve m f.nodes_ids 1 with _ | n2 <;>
      rcases h2 : resolve m f.nodes_ids 2 with _ | n3 <;>
        simp only [processFace, h0, h1, h2] at h <;> try exact Except.noConfusion h
  injection h with h3
  subst h3
  have A := edgeStep_spec g { f with nodes := f.nodes ++ [n1, n2, n3] } n1 n2 hU
  have P1 := edgeStep_pres g { f with nodes := f.nodes ++ [n1, n2, n3] } n1 n2
  generalize hs1 : edgeStep g { f with nodes := f.nodes ++ [n1, n2, n3] } n1 n2 = s1
    at A P1 ⊢
  obtain ⟨hU1, hp1, hPL1, hsub1⟩ := A
  obtain ⟨_, _, _, _, hfid1, hnodes1⟩ := P1
  have A2 := edgeStep_spec s1.1 s1.2 n2 n3 hU1
  have P2 := edgeStep_pres s1.1 s1.2 n2 n3
  generalize hs2 : edgeStep s1.1 s1.2 n2 n3 = s2 at A2 P2 ⊢
  obtain ⟨hU2, hp2, hPL2, hsub2⟩ := A2
  obtain ⟨_, _, _, _, hfid2, hnodes2⟩ := P2
  have A3 := edgeStep_spec s2.1 s2.2 n3 n1 hU2
  have P3 := edgeStep_pres s2.1 s2.2 n3 n1
  generalize hs3 : edgeStep s2.1 s2.2 n3 n1 = s3 at A3 P3 ⊢
  obtain ⟨hU3, hp3, hPL3, hsub3⟩ := A3
  obtain ⟨_, _, _, _, hfid3, hnodes3⟩ := P3
  refine ⟨hU3, ?_, ?_⟩
  · exact fun fid es a b hp => hp3 _ _ _ _ (hp2 _ _ _ _ (hp1 _ _ _ _ hp))
  · intro hfe
    have hPL1f : PairLinked s3.1 s3.2.fid s3.2.edges n1 n2 := by
      rw [hfid3, hfid2]
      exact PairLinked_mono hsub3 (hp3 _ _ _ _ (PairLinked_mono hsub2 (hp2 _ _ _ _ hPL1)))
    have hPL2f : PairLinked s3.1 s3.2.fid s3.2.edges n2 n3 := by
      rw [hfid3]
      exact PairLinked_mono hsub3 (hp3 _ _ _ _ hPL2)
    have hPL3f : PairLinked s3.1 s3.2.fid s3.2.edges n3 n1 := hPL3
    intro a b ha hb hne
    have hnodes : s3.2.nodes = [n1, n2, n3] := by
      rw [hnodes3, hnodes2, hnodes1]
      show f.nodes ++ [n1, n2, n3] = [n1, n2, n3]
      rw [hfe]
      rfl
    rw [hnodes] at ha hb
    simp only [List.mem_cons, List.mem_singleton, List.not_mem_nil, or_false] at ha hb
    rcases ha with rfl | rfl | rfl <;> rcases hb with rfl | rfl | rfl
    · exact absurd rfl hne
    · exact hPL1f
    · exact PairLinked_symm hPL3f
    · exact PairLinked_symm hPL1f
    · exact absurd rfl hne
    · exact hPL2f
    · exact hPL3f
    · exact PairLinked_symm hPL2f
    · exact absurd rfl hne

theorem setFaces_inv (m : List Nat) : ∀ (faces : List FaceL) (g : GridSt)
    (r : GridSt × List FaceL), UniqInv g → (∀ f ∈ faces, f.nodes = []) →
    setFaces g m faces = .ok r →
    UniqInv r.1 ∧ PLpres g r.1 ∧ (∀ f ∈ r.2, FaceLinked r.1 f) := by
  intro faces
  induction faces with
  | nil =>
    intro g r hU _ h
    simp only [setFaces] at h
    injection h with h2
    subst h2
    exact ⟨hU, fun _ _ _ _ hp => hp, by intro f hf; simp at hf⟩
  | cons f rest ih =>
    intro g r hU hclean h
    cases hp : processFace g m f with
    | error e => simp only [setFaces, hp] at h; exact Except.noConfusion h
    | ok gf =>
      cases hr : setFaces gf.1 m rest with
      | error es => simp only [setFaces, hp, hr] at h; exact Except.noConfusion h
      | ok gfs =>
        simp only [setFaces, hp, hr] at h
        injection h with h2
        subst h2
        obtain ⟨hU1, hpres1, hFL⟩ := processFace_spec hU hp
        obtain ⟨hU2, hpres2, hFL2⟩ := ih gf.1 gfs hU1
          (fun f' hf' => hclean f' (List.mem_cons_of_mem _ hf')) hr
        refine ⟨hU2,
          fun fid es a b hpl => hpres2 _ _ _ _ (hpres1 _ _ _ _ hpl), ?_⟩
        intro f' hf'
        rcases List.mem_cons.mp hf' with rfl | hf''
        · exact FaceLinked_of_pres hpres2
            (hFL (hclean f (List.mem_cons_self _ _)))
        · exact hFL2 f' hf''

theorem facesPhase_inv : ∀ (jobs : List (List Nat × List FaceL)) (g : GridSt)
    (r : GridSt × List (List FaceL)), UniqInv g →
    (∀ f ∈ g.Faces, FaceLinked g f) →
    (∀ jb ∈ jobs, ∀ f ∈ jb.2, f.nodes = []) →
    facesPhase g jobs = .ok r →
    UniqInv r.1 ∧ ∀ f ∈ r.1.Faces, FaceLinked r.1 f := by
  intro jobs
  induction jobs with
  | nil =>
    intro g r hU hF _ h
    simp only [facesPhase] at h
    injection h with h2
    subst h2
    exact ⟨hU, hF⟩
  | cons job rest ih =>
    intro g r hU hF hclean h
    cases hs : setFaces g job.1 job.2 with
    | error es => simp only [facesPhase, hs] at h; exact Except.noConfusion h
    | ok gfs =>
      cases hrec : facesPhase { gfs.1 with Faces := gfs.1.Faces ++ gfs.2 }
          rest with
      | error es => simp only [facesPhase, hs, hrec] at h; exact Except.noConfusion h
      | ok gps =>
        simp only [facesPhase, hs, hrec] at h
        injection h with h2
        subst h2
        obtain ⟨hU1, hpres1, hFL1⟩ := setFaces_inv job.1 job.2 g gfs hU
          (hclean job (List.mem_cons_self _ _)) hs
        obtain ⟨_, hFaces, _, _⟩ := setFaces_pres job.1 job.2 g gfs hs
        have hU1' : UniqInv ({ gfs.1 with Faces := gfs.1.Faces ++ gfs.2 } : GridSt) := hU1
        have hF2 : ∀ f ∈ ({ gfs.1 with Faces := gfs.1.Faces ++ gfs.2 } : GridSt).Faces,
            FaceLinked { gfs.1 with Faces := gfs.1.Faces ++ gfs.2 } f := by
          intro f hf
          rcases List.mem_append.mp hf with hold | hnew
          · rw [hFaces] at hold
            exact FaceLinked_of_pres hpres1 (hF f hold)
          · exact hFL1 f hnew
        exact ih _ gps hU1' hF2
          (fun jb hjb => hclean jb (List.mem_cons_of_mem _ hjb)) hrec

/-- C1: after merging any number of zones into an initially empty grid,
every unordered pair of distinct canonical nodes incident to a common face
is connected by exactly one edge of `grid.Edges`, and every face needing
the pair is attached to that very edge (the edge is in the face's edge
list, and the face's identity is in the edge's face list): the first face
needing a pair creates its edge, every later one reuses it. -/
theorem edge_uniqueness (zs : List ZoneInput) (alg : String) (g' : GridSt)
    (h : readTecplot g0 zs alg = .ok g') :
    ∀ f ∈ g'.Faces, ∀ a b, a ∈ f.nodes → b ∈ f.nodes → a ≠ b →
      countMatch a b g'.Edges = 1 ∧
      ∀ j, j < g'.Edges.length →
        edgeMatch a b (g'.Edges.getD j dummyE) = true →
        j ∈ f.edges ∧ f.fid ∈ (g'.Edges.getD j dummyE).faces := by
  by_cases halg : alg ∈ algNames
  · simp only [readTecplot, if_pos halg] at h
    rcases hfp : facesPhase (gridPre g0 zs alg) (jobsOf g0 zs alg) with es | gps
    · rw [hfp] at h
      exact Except.noConfusion h
    · rw [hfp] at h
      injection h with h2
      subst h2
      have hU0 : UniqInv (gridPre g0 zs alg) := by
        intro a b
        rw [show (gridPre g0 zs alg).Edges = g0.Edges from
          (setNodes_pres alg _ g0).1]
        exact Nat.zero_le 1
      have hF0 : ∀ f ∈ (gridPre g0 zs alg).Faces,
          FaceLinked (gridPre g0 zs alg) f := by
        intro f hf
        rw [show (gridPre g0 zs alg).Faces = g0.Faces from
          (setNodes_pres alg _ g0).2.1] at hf
        simp [g0] at hf
      have hclean : ∀ jb ∈ jobsOf g0 zs alg, ∀ f ∈ jb.2, f.nodes = [] := by
        intro jb hjb f hf
        obtain ⟨pr, hpr, hpr2⟩ := List.mem_map.mp (List.mem_zip hjb).2
        rw [← hpr2] at hf
        exact (parsePhase_clean zs _ pr hpr f hf).1
      obtain ⟨hUf, hFf⟩ := facesPhase_inv _ _ _ hU0 hF0 hclean hfp
      intro f hf a b ha hb hne
      exact hFf f hf a b ha hb hne
  · simp [readTecplot, halg] at h

/-- Witness for `edge_uniqueness`: in the two-zone merge `gW`, the shared
pair (1, 2) of the second face is connected by exactly one edge, which the
face is attached to. -/
theorem edge_uniqueness_witness :
    countMatch 1 2 gW.Edges = 1 ∧
    ∀ j, j < gW.Edges.length →
      edgeMatch 1 2 (gW.Edges.getD j dummyE) = true →
      j ∈ (gW.Faces.getD 1 ⟨0, [], [], []⟩).edges ∧
      (gW.Faces.getD 1 ⟨0, [], [], []⟩).fid ∈
        (gW.Edges.getD j dummyE).faces :=
  edge_uniqueness [zoneA, zoneB] "n_square" gW rfl
    (gW.Faces.getD 1 ⟨0, [], [], []⟩) (by decide) 1 2 (by decide) (by decide)
    (by decide)

end TGM
